import Mathlib

/-!
Verification development for the entity-resolution and temporal-pairing core
of the `llm-leads-insights` repository (files `tender_group.py` and
`tender_link.py`).  The Python source is shallowly embedded below: pure
functions become Lean functions over `List Char` / `String` / `ℚ`, the
mutable similarity cache becomes explicit state passing, and pandas
DataFrames become ordered association lists of named columns.
-/

namespace S2P

/-! ## Python string primitives -/

/-- Whitespace characters recognised by Python's `str.strip()` and `\s`
(ASCII part, which is all the pipeline produces). -/
def pyWs (c : Char) : Bool :=
  c == ' ' || c == '\t' || c == '\n' || c == '\r' || c == '\x0b' || c == '\x0c'

/-- Drop leading characters satisfying `p`. -/
def dropLeading (p : Char → Bool) : List Char → List Char
  | [] => []
  | c :: t => if p c then dropLeading p t else c :: t

/-- Python `s.strip()` on a char list: drop whitespace from both ends. -/
def pyStrip (l : List Char) : List Char :=
  ((dropLeading pyWs l.reverse).reverse |> dropLeading pyWs)

/-- Does `b` start with `a`?  (list-of-chars version) -/
def startsWith : List Char → List Char → Bool
  | [], _ => true
  | _ :: _, [] => false
  | c :: cs, d :: ds => c == d && startsWith cs ds

/-- Python substring containment `a in b` over char lists. -/
def subIn (a : List Char) : List Char → Bool
  | [] => startsWith a []
  | c :: t => startsWith a (c :: t) || subIn a t

/-- Python substring containment on `String`s. -/
def strIn (a b : String) : Bool := subIn a.data b.data

/-- Code-point comparison of characters (Python `<` on single chars). -/
def charLtb (c d : Char) : Bool := c.toNat < d.toNat

/-- Python lexicographic string comparison `a < b` (by code points). -/
def strLtb : List Char → List Char → Bool
  | [], [] => false
  | [], _ :: _ => true
  | _ :: _, [] => false
  | c :: cs, d :: ds => if c == d then strLtb cs ds else charLtb c d

/-! ## difflib.SequenceMatcher (stdlib collaborator of `_similarity`)

`SequenceMatcher(None, a, b).ratio()` with no junk predicate.  `b2j` maps a
char to its ascending positions in `b`; the autojunk heuristic removes
"popular" chars when `len(b) >= 200`. -/

/-- Ascending positions of `c` in `b`. -/
def positionsOf (c : Char) (b : List Char) : List ℕ :=
  (List.range b.length).filter (fun j => b.getD j ' ' == c)

/-- The autojunk rule of `SequenceMatcher.__chain_b`: for `len(b) >= 200`,
chars occurring more than `len(b) // 100 + 1` times are dropped from `b2j`. -/
def b2jGet (b : List Char) (c : Char) : List ℕ :=
  let ps := positionsOf c b
  if b.length ≥ 200 && ps.length > b.length / 100 + 1 then [] else ps

/-- One step of the inner `for j in b2j[a[i]]` loop of `find_longest_match`:
state is `(newj2len, (besti, bestj, bestsize))`. -/
def flmInnerStep (j2len : List (ℕ × ℕ)) (i : ℕ)
    (st : List (ℕ × ℕ) × (ℕ × ℕ × ℕ)) (j : ℕ) : List (ℕ × ℕ) × (ℕ × ℕ × ℕ) :=
  let k := (if j = 0 then 0 else ((j2len.lookup (j - 1)).getD 0)) + 1
  let best := st.2
  let best' := if k > best.2.2 then (i + 1 - k, j + 1 - k, k) else best
  ((j, k) :: st.1, best')

/-- The inner loop over the (window-filtered) positions of `a[i]` in `b`. -/
def flmScan (j2len : List (ℕ × ℕ)) (i blo bhi : ℕ) (js : List ℕ)
    (best : ℕ × ℕ × ℕ) : List (ℕ × ℕ) × (ℕ × ℕ × ℕ) :=
  ((js.filter (fun j => blo ≤ j && j < bhi)).foldl (flmInnerStep j2len i) ([], best))

/-- The outer `for i in range(alo, ahi)` loop; `steps` counts down to `ahi`. -/
def flmOuter (a b : List Char) (blo bhi : ℕ) :
    ℕ → ℕ → List (ℕ × ℕ) → (ℕ × ℕ × ℕ) → (ℕ × ℕ × ℕ)
  | _, 0, _, best => best
  | i, steps + 1, j2len, best =>
    let r := flmScan j2len i blo bhi (b2jGet b (a.getD i ' ')) best
    flmOuter a b blo bhi (i + 1) steps r.1 r.2

/-- Left extension loop of `find_longest_match` (the junk set is empty, so
the junk conditions vanish); `fuel` dominates `besti - alo`. -/
def flmExtLeft (a b : List Char) (alo blo : ℕ) :
    ℕ → (ℕ × ℕ × ℕ) → (ℕ × ℕ × ℕ)
  | 0, st => st
  | fuel + 1, (bi, bj, sz) =>
    if bi > alo && bj > blo && (a.getD (bi - 1) ' ' == b.getD (bj - 1) '!') then
      flmExtLeft a b alo blo fuel (bi - 1, bj - 1, sz + 1)
    else (bi, bj, sz)

/-- Right extension loop of `find_longest_match`. -/
def flmExtRight (a b : List Char) (ahi bhi : ℕ) :
    ℕ → (ℕ × ℕ × ℕ) → (ℕ × ℕ × ℕ)
  | 0, st => st
  | fuel + 1, (bi, bj, sz) =>
    if bi + sz < ahi && bj + sz < bhi && (a.getD (bi + sz) ' ' == b.getD (bj + sz) '!') then
      flmExtRight a b ahi bhi fuel (bi, bj, sz + 1)
    else (bi, bj, sz)

/-- `SequenceMatcher.find_longest_match(alo, ahi, blo, bhi)` returning
`(besti, bestj, bestsize)`. -/
def findLongestMatch (a b : List Char) (alo ahi blo bhi : ℕ) : ℕ × ℕ × ℕ :=
  let best := flmOuter a b blo bhi alo (ahi - alo) [] (alo, blo, 0)
  let best := flmExtLeft a b alo blo best.1 best
  flmExtRight a b ahi bhi ahi best

/-- Total size of matching blocks (the quantity `ratio()` divides): the
recursive decomposition of `get_matching_blocks`.  `fuel` dominates the
recursion depth; every recursive call strictly shrinks the window, so the
initial fuel `(ahi - alo) + (bhi - blo) + 1` is never exhausted. -/
def matchesTotal (a b : List Char) : ℕ → ℕ → ℕ → ℕ → ℕ → ℕ
  | 0, _, _, _, _ => 0
  | fuel + 1, alo, ahi, blo, bhi =>
    let r := findLongestMatch a b alo ahi blo bhi
    if r.2.2 = 0 then 0
    else
      matchesTotal a b fuel alo r.1 blo r.2.1 + r.2.2 +
        matchesTotal a b fuel (r.1 + r.2.2) ahi (r.2.1 + r.2.2) bhi

/-- `SequenceMatcher(None, a, b).ratio()`: `2*M / (len(a)+len(b))`, and `1.0`
when both strings are empty (`difflib._calculate_ratio`).  Rationals are
built with `mkRat` throughout so that every score is a kernel-computable
normalised value. -/
def smRatio (a b : String) : ℚ :=
  let la := a.data.length
  let lb := b.data.length
  if la + lb = 0 then mkRat 1 1
  else mkRat (2 * matchesTotal a.data b.data (la + lb + 1) 0 la 0 lb) (la + lb)

end S2P

namespace S2P

/-! ## hashlib.md5 (stdlib collaborator of `make_project_id`)

MD5 over the UTF-8 encoding of the input string, per RFC 1321, on `ℕ`
reduced mod `2 ^ 32`. -/

/-- UTF-8 encoding of one character. -/
def utf8Char (c : Char) : List ℕ :=
  let n := c.toNat
  if n < 128 then [n]
  else if n < 2048 then [192 + n / 64, 128 + n % 64]
  else if n < 65536 then [224 + n / 4096, 128 + n / 64 % 64, 128 + n % 64]
  else [240 + n / 262144, 128 + n / 4096 % 64, 128 + n / 64 % 64, 128 + n % 64]

/-- UTF-8 byte sequence of a string (Python `s.encode("utf-8")`). -/
def utf8Bytes (s : String) : List ℕ := s.data.flatMap utf8Char

/-- Addition mod 2^32. -/
def uadd (x y : ℕ) : ℕ := (x + y) % 4294967296

/-- Bitwise complement within 32 bits (operands stay below 2^32). -/
def unot (x : ℕ) : ℕ := 4294967295 - x

/-- Left rotation of a 32-bit word. -/
def rotl (x s : ℕ) : ℕ := (x * 2 ^ s + x / 2 ^ (32 - s)) % 4294967296

/-- The 64 MD5 sine-derived constants `K[i] = floor(abs(sin(i+1)) * 2^32)`. -/
def md5K : List ℕ :=
  [0xd76aa478, 0xe8c7b756, 0x242070db, 0xc1bdceee,
   0xf57c0faf, 0x4787c62a, 0xa8304613, 0xfd469501,
   0x698098d8, 0x8b44f7af, 0xffff5bb1, 0x895cd7be,
   0x6b901122, 0xfd987193, 0xa679438e, 0x49b40821,
   0xf61e2562, 0xc040b340, 0x265e5a51, 0xe9b6c7aa,
   0xd62f105d, 0x02441453, 0xd8a1e681, 0xe7d3fbc8,
   0x21e1cde6, 0xc33707d6, 0xf4d50d87, 0x455a14ed,
   0xa9e3e905, 0xfcefa3f8, 0x676f02d9, 0x8d2a4c8a,
   0xfffa3942, 0x8771f681, 0x6d9d6122, 0xfde5380c,
   0xa4beea44, 0x4bdecfa9, 0xf6bb4b60, 0xbebfbc70,
   0x289b7ec6, 0xeaa127fa, 0xd4ef3085, 0x04881d05,
   0xd9d4d039, 0xe6db99e5, 0x1fa27cf8, 0xc4ac5665,
   0xf4292244, 0x432aff97, 0xab9423a7, 0xfc93a039,
   0x655b59c3, 0x8f0ccc92, 0xffeff47d, 0x85845dd1,
   0x6fa87e4f, 0xfe2ce6e0, 0xa3014314, 0x4e0811a1,
   0xf7537e82, 0xbd3af235, 0x2ad7d2bb, 0xeb86d391]

/-- The per-step left-rotation amounts. -/
def md5S : List ℕ :=
  [7, 12, 17, 22, 7, 12, 17, 22, 7, 12, 17, 22, 7, 12, 17, 22,
   5, 9, 14, 20, 5, 9, 14, 20, 5, 9, 14, 20, 5, 9, 14, 20,
   4, 11, 16, 23, 4, 11, 16, 23, 4, 11, 16, 23, 4, 11, 16, 23,
   6, 10, 15, 21, 6, 10, 15, 21, 6, 10, 15, 21, 6, 10, 15, 21]

/-- RFC 1321 padding: append `0x80`, zeros to 56 mod 64, then the bit length
as eight little-endian bytes. -/
def md5Pad (msg : List ℕ) : List ℕ :=
  let n := msg.length
  let lenBits := (n * 8) % 2 ^ 64
  msg ++ 128 :: List.replicate ((119 - n % 64) % 64) 0 ++
    (List.range 8).map (fun k => lenBits / 256 ^ k % 256)

/-- Little-endian 32-bit word `g` of a 64-byte block. -/
def blockWord (blk : List ℕ) (g : ℕ) : ℕ :=
  blk.getD (4 * g) 0 + 256 * blk.getD (4 * g + 1) 0 +
    65536 * blk.getD (4 * g + 2) 0 + 16777216 * blk.getD (4 * g + 3) 0

/-- One of the 64 MD5 steps applied to the running state `(A, B, C, D)`. -/
def md5Step (blk : List ℕ) (st : ℕ × ℕ × ℕ × ℕ) (i : ℕ) : ℕ × ℕ × ℕ × ℕ :=
  let (A, B, C, D) := st
  let fg : ℕ × ℕ :=
    if i < 16 then (Nat.lor (Nat.land B C) (Nat.land (unot B) D), i)
    else if i < 32 then (Nat.lor (Nat.land D B) (Nat.land (unot D) C), (5 * i + 1) % 16)
    else if i < 48 then (Nat.xor B (Nat.xor C D), (3 * i + 5) % 16)
    else (Nat.xor C (Nat.lor B (unot D)), (7 * i) % 16)
  let F := (fg.1 + A + md5K.getD i 0 + blockWord blk fg.2) % 4294967296
  (D, uadd B (rotl F (md5S.getD i 0)), B, C)

/-- Process one 64-byte block, adding the step result into the state. -/
def md5Block (st : ℕ × ℕ × ℕ × ℕ) (blk : List ℕ) : ℕ × ℕ × ℕ × ℕ :=
  let r := (List.range 64).foldl (md5Step blk) st
  (uadd st.1 r.1, uadd st.2.1 r.2.1, uadd st.2.2.1 r.2.2.1, uadd st.2.2.2 r.2.2.2)

/-- Split a padded message into its 64-byte blocks. -/
def md5Chunks : ℕ → List ℕ → List (List ℕ)
  | 0, _ => []
  | steps + 1, msg =>
    match msg with
    | [] => []
    | _ => msg.take 64 :: md5Chunks steps (msg.drop 64)

/-- The four final state words for a string input. -/
def md5Words (s : String) : ℕ × ℕ × ℕ × ℕ :=
  let padded := md5Pad (utf8Bytes s)
  (md5Chunks padded.length padded).foldl md5Block
    (0x67452301, 0xefcdab89, 0x98badcfe, 0x10325476)

/-- Little-endian bytes of a 32-bit word. -/
def wordBytes (w : ℕ) : List ℕ := [w % 256, w / 256 % 256, w / 65536 % 256, w / 16777216 % 256]

/-- The 16 digest bytes. -/
def md5BytesList (s : String) : List ℕ :=
  let w := md5Words s
  wordBytes w.1 ++ wordBytes w.2.1 ++ wordBytes w.2.2.1 ++ wordBytes w.2.2.2

/-- One lowercase hex digit. -/
def hexDigit (n : ℕ) : Char := if n < 10 then Char.ofNat (48 + n) else Char.ofNat (87 + n)

/-- Two hex chars of one byte. -/
def hexByte (b : ℕ) : List Char := [hexDigit (b / 16), hexDigit (b % 16)]

/-- `hashlib.md5(s.encode("utf-8")).hexdigest()` as a char list. -/
def md5HexChars (s : String) : List Char := (md5BytesList s).flatMap hexByte

end S2P

namespace S2P

/-! ## Similarity scorer (`_similarity` in `tender_group.py`)

Scores are exact rationals; the thresholds 0.5 / 0.8 / 0.88 and the scores
0.0 / 0.9 are all exactly representable, matching the Python floats on all
realisable length ratios.  The mutable `_cache` dict becomes an explicitly
passed association list. -/

/-- The memoisation cache: normalised `(shorter, longer)` pair to score. -/
abbrev SimCache := List ((String × String) × ℚ)

/-- The similarity threshold constant (source value `0.88`). -/
def SIMILARITY_THRESHOLD : ℚ := mkRat 88 100

/-- The score computed after normalisation (`a` is the not-longer string):
the containment shortcut (`0.9` when `a` is inside `b` with length ratio at
least `0.8`), else the SequenceMatcher ratio. -/
def simCore (a b : String) : ℚ :=
  if strIn a b ∧ mkRat 8 10 ≤ mkRat a.length b.length then mkRat 9 10
  else smRatio a b

/-- The body of `_similarity` after the swap normalisation, on the key
pair `p`: the `0.5` length-ratio prefilter runs before the cache is
consulted; on a miss the fresh score is stored while the cache is below
its 50000-entry cap. -/
def simNorm (p : String × String) (cache : SimCache) : ℚ × SimCache :=
  if mkRat p.1.length p.2.length < mkRat 1 2 then (mkRat 0 1, cache)
  else
    match cache.lookup p with
    | some r => (r, cache)
    | none =>
      let r := simCore p.1 p.2
      if cache.length < 50000 then (r, (p, r) :: cache) else (r, cache)

/-- `_similarity(a, b, _cache)` with the cache passed and returned. -/
def _similarity (a b : String) (cache : SimCache) : ℚ × SimCache :=
  if a.data.isEmpty || b.data.isEmpty then (mkRat 0 1, cache)
  else simNorm (if a.length > b.length then (b, a) else (a, b)) cache

/-- Cache-free score of the normalised pair. -/
def simPureNorm (p : String × String) : ℚ :=
  if mkRat p.1.length p.2.length < mkRat 1 2 then mkRat 0 1 else simCore p.1 p.2

/-- Cache-free score: what `_similarity` computes when every lookup misses. -/
def simPure (a b : String) : ℚ :=
  if a.data.isEmpty || b.data.isEmpty then mkRat 0 1
  else simPureNorm (if a.length > b.length then (b, a) else (a, b))

/-- A cache is consistent when every stored entry equals the recomputed
score of its (normalised) key. -/
def CacheOK (c : SimCache) : Prop :=
  ∀ k r, (k, r) ∈ c → r = simCore k.1 k.2

/-! ## Bucketed clusterer (`_cluster_cores`)

A cluster is `(representative index, member set)`.  Member sets are CPython
`set` objects of small nonnegative ints, modelled by their open-addressing
hash table (`Objects/setobject.c`): an 8-slot table growing by powers of
two, probing the home slot `hash & mask` plus up to `LINEAR_PROBES = 9`
successors and then perturbed jumps `i = i*5 + 1 + (perturb >>= 5)`, with a
resize to the smallest power of two above `used*4` once `fill*5 >= mask*3`
(`used*2` beyond 50000), and `set_merge` doing one big resize up front.
Iteration order is ascending slot order, so e.g. `{1, 8}` iterates `[8, 1]`.
The probe loops carry fuel `table length + 64`, ample for the worst case
(the jump recurrence cycles through all slots once the perturb is
exhausted), so the fallback branches are unreachable. -/

/-- `hash` of a nonnegative Python int: reduction modulo `2^61 - 1`. -/
def pyHash (x : ℕ) : ℕ := x % 2305843009213693951

/-- A CPython set of small ints: slot table and fill count (no deletions
occur in this pipeline, so `fill = used`). -/
structure PySet where
  table : List (Option ℕ)
  fill : ℕ
deriving DecidableEq, Repr

/-- The linear scan of `set_add_entry` over `cnt` consecutive slots from
`i`: the first free slot (`inl`) or a slot already holding the key
(`inr`). -/
def addScan (table : List (Option ℕ)) (key : ℕ) : ℕ → ℕ → Option (ℕ ⊕ Unit)
  | _, 0 => none
  | i, cnt + 1 =>
    match table.getD i none with
    | none => some (Sum.inl i)
    | some k => if k = key then some (Sum.inr ()) else addScan table key (i + 1) cnt

/-- The probe loop of `set_add_entry`: home slot and up to nine successors
when they fit under the mask, then a perturbed jump. -/
def addProbe (table : List (Option ℕ)) (key : ℕ) : ℕ → ℕ → ℕ → Option (ℕ ⊕ Unit)
  | _, _, 0 => none
  | i, perturb, fuel + 1 =>
    let mask := table.length - 1
    let probes := if i + 9 ≤ mask then 9 else 0
    match addScan table key i (probes + 1) with
    | some r => some r
    | none =>
      addProbe table key ((5 * i + 1 + (perturb >>> 5)) % (mask + 1)) (perturb >>> 5) fuel

/-- The linear scan of `set_insert_clean`: the first free slot among `cnt`
consecutive slots from `i`. -/
def cleanScan (table : List (Option ℕ)) : ℕ → ℕ → Option ℕ
  | _, 0 => none
  | i, cnt + 1 =>
    match table.getD i none with
    | none => some i
    | some _ => cleanScan table (i + 1) cnt

/-- The probe loop of `set_insert_clean`. -/
def cleanProbe (table : List (Option ℕ)) : ℕ → ℕ → ℕ → Option ℕ
  | _, _, 0 => none
  | i, perturb, fuel + 1 =>
    let mask := table.length - 1
    let probes := if i + 9 ≤ mask then 9 else 0
    match cleanScan table i (probes + 1) with
    | some r => some r
    | none =>
      cleanProbe table ((5 * i + 1 + (perturb >>> 5)) % (mask + 1)) (perturb >>> 5) fuel

/-- `set_insert_clean`: place a key into a table known not to contain it. -/
def insertClean (table : List (Option ℕ)) (key : ℕ) : List (Option ℕ) :=
  match cleanProbe table (pyHash key % table.length) (pyHash key) (table.length + 64) with
  | some i => table.set i (some key)
  | none => table

/-- `set_table_resize`: double from the minimum size 8 while
`newsize <= minused`. -/
def growSizeAux (minused : ℕ) : ℕ → ℕ → ℕ
  | sz, 0 => sz
  | sz, f + 1 => if sz ≤ minused then growSizeAux minused (sz * 2) f else sz

/-- The new table size: the smallest power of two strictly above
`minused`, at least 8. -/
def growSize (minused : ℕ) : ℕ := growSizeAux minused 8 (minused + 4)

/-- Rebuild the table at the new size, re-inserting the old entries in
ascending slot order with `set_insert_clean`. -/
def pySetResize (s : PySet) (minused : ℕ) : PySet :=
  ⟨s.table.foldl (fun t e => match e with
      | some k => insertClean t k
      | none => t) (List.replicate (growSize minused) none), s.fill⟩

/-- `set.add` (`set_add_entry`): find the key or a free slot; on a fresh
insertion bump `fill` and resize once `fill*5 >= mask*3`. -/
def pySetAdd (s : PySet) (key : ℕ) : PySet :=
  let h := pyHash key
  match addProbe s.table key (h % s.table.length) h (s.table.length + 64) with
  | some (Sum.inr _) => s
  | some (Sum.inl i) =>
    let t := s.table.set i (some key)
    let fill := s.fill + 1
    if (s.table.length - 1) * 3 ≤ fill * 5 then
      pySetResize ⟨t, fill⟩ (if 50000 < fill then fill * 2 else fill * 4)
    else ⟨t, fill⟩
  | none => s

/-- The empty set: the eight-slot small table. -/
def pySetEmpty : PySet := ⟨List.replicate 8 none, 0⟩

/-- A one-element set literal `{x}`. -/
def pySetSingleton (x : ℕ) : PySet := pySetAdd pySetEmpty x

/-- Set iteration order: ascending hash-table slots. -/
def pySetToList (s : PySet) : List ℕ := s.table.filterMap id

/-- `set.update` (`set_merge`): one big resize up front when warranted,
then a verbatim table copy into an empty same-sized table, a clean copy
into an empty table, or ordinary insertion of the other set's entries in
its slot order. -/
def pySetMerge (so other : PySet) : PySet :=
  if other.fill = 0 then so
  else
    let so1 := if (so.table.length - 1) * 3 ≤ (so.fill + other.fill) * 5
      then pySetResize so ((so.fill + other.fill) * 2) else so
    if so1.fill = 0 ∧ so1.table.length = other.table.length then
      ⟨other.table, other.fill⟩
    else if so1.fill = 0 then
      ⟨other.table.foldl (fun t e => match e with
        | some k => insertClean t k
        | none => t) so1.table, other.fill⟩
    else
      other.table.foldl (fun acc e => match e with
        | some k => pySetAdd acc k
        | none => acc) so1

/-- Python `min(lengths, default=1)`. -/
def pyMinD1 : List ℕ → ℕ
  | [] => 1
  | x :: t => t.foldl min x

/-- Bucket key length: `min(PREFIX_BUCKET_LEN, min(lengths, default=1))`
over the lengths of the non-empty cores. -/
def pfxLen (cores : List String) : ℕ :=
  min 8 (pyMinD1 ((cores.filter (fun s => !s.data.isEmpty)).map String.length))

/-- Append index `i` to the bucket keyed `p`, keeping first-insertion order
(model of `defaultdict(list)`). -/
def bucketAdd (p : List Char) (i : ℕ) : List (List Char × List ℕ) → List (List Char × List ℕ)
  | [] => [(p, [i])]
  | (q, is') :: rest =>
    if q == p then (q, is' ++ [i]) :: rest else (q, is') :: bucketAdd p i rest

/-- The buckets of `_cluster_cores`, in first-insertion order. -/
def bucketsOf (cores : List String) (plen : ℕ) : List (List Char × List ℕ) :=
  (List.range cores.length).foldl
    (fun bs i => bucketAdd ((cores.getD i "").data.take plen) i bs) []

/-- Descending-length order with ties by ascending index: the stable
`sorted(bucket, key=lambda i: -len(cores[i]))` on an ascending bucket. -/
def lenOrd (cores : List String) (i j : ℕ) : Bool :=
  (cores.getD j "").length < (cores.getD i "").length ||
    ((cores.getD i "").length == (cores.getD j "").length && i ≤ j)

/-- Ordered insert for sorting. -/
def insertLe (le : ℕ → ℕ → Bool) (x : ℕ) : List ℕ → List ℕ
  | [] => [x]
  | y :: t => if le x y then x :: y :: t else y :: insertLe le x t

/-- Insertion sort.  Every comparison key used below is a linear order
(ties are broken by the original index), so this computes the same list as
any stable sort — in particular as Python's `sorted` and pandas' lexsort. -/
def insSort (le : ℕ → ℕ → Bool) : List ℕ → List ℕ
  | [] => []
  | x :: t => insertLe le x (insSort le t)

/-- The inner loop of the greedy pass: try to join `idx` to the first
cluster whose representative scores at least `θ` against it. -/
def tryAssignC (cores : List String) (θ : ℚ) (idx : ℕ) :
    List (ℕ × PySet) → SimCache → List (ℕ × PySet) × Bool × SimCache
  | [], c => ([], false, c)
  | cl :: rest, c =>
    let s := _similarity (cores.getD idx "") (cores.getD cl.1 "") c
    if θ ≤ s.1 then ((cl.1, pySetAdd cl.2 idx) :: rest, true, s.2)
    else
      let r := tryAssignC cores θ idx rest s.2
      (cl :: r.1, r.2.1, r.2.2)

/-- The greedy pass over the sorted bucket members. -/
def greedyC (cores : List String) (θ : ℚ) :
    List ℕ → List (ℕ × PySet) → SimCache → List (ℕ × PySet) × SimCache
  | [], cls, c => (cls, c)
  | idx :: rest, cls, c =>
    let r := tryAssignC cores θ idx cls c
    if r.2.1 then greedyC cores θ rest r.1 r.2.2
    else greedyC cores θ rest (r.1 ++ [(idx, pySetSingleton idx)]) r.2.2

/-- Scan `rest` for the first cluster whose representative scores at least
`θ` against core `ri`; returns its position in `rest`. -/
def innerScanC (cores : List String) (θ : ℚ) (ri : ℕ) :
    List (ℕ × PySet) → SimCache → Option ℕ × SimCache
  | [], c => (none, c)
  | cl :: rest, c =>
    let s := _similarity (cores.getD ri "") (cores.getD cl.1 "") c
    if θ ≤ s.1 then (some 0, s.2)
    else
      let r := innerScanC cores θ ri rest s.2
      (r.1.map (· + 1), r.2)

/-- One merge pass: find the first pair `i < j` of clusters whose
representatives meet `θ`, union `j` into `i`, and stop (the Python loop
`break`s out of the whole pass after one merge). -/
def mergePassC (cores : List String) (θ : ℚ) :
    List (ℕ × PySet) → SimCache → List (ℕ × PySet) × SimCache
  | [], c => ([], c)
  | cl :: rest, c =>
    match innerScanC cores θ cl.1 rest c with
    | (some j, c') =>
      ((cl.1, pySetMerge cl.2 (rest.getD j (0, pySetEmpty)).2) :: rest.eraseIdx j, c')
    | (none, c') =>
      let r := mergePassC cores θ rest c'
      (cl :: r.1, r.2)

/-- The `for _ in range(2)` merge loop. -/
def mergeTwiceC (cores : List String) (θ : ℚ) (cls : List (ℕ × PySet))
    (c : SimCache) : List (ℕ × PySet) × SimCache :=
  let r := mergePassC cores θ cls c
  mergePassC cores θ r.1 r.2

/-- Cluster one bucket: oversized buckets become singletons with no
similarity calls; otherwise greedy pass then two merge passes. -/
def clusterBucketC (cores : List String) (θ : ℚ) (bis : List ℕ)
    (c : SimCache) : List PySet × SimCache :=
  if bis.isEmpty then ([], c)
  else if 80 < bis.length then (bis.map (fun i => pySetSingleton i), c)
  else
    let ord := insSort (lenOrd cores) bis
    let g := greedyC cores θ ord [] c
    let m := mergeTwiceC cores θ g.1 g.2
    (m.1.map (·.2), m.2)

/-- One step of the `for bucket_indices in buckets.values()` loop:
append the bucket's clusters and thread the cache. -/
def clusterFoldStep (cores : List String) (θ : ℚ)
    (acc : List PySet × SimCache) (b : List Char × List ℕ) :
    List PySet × SimCache :=
  let r := clusterBucketC cores θ b.2 acc.2
  (acc.1 ++ r.1, r.2)

/-- `_cluster_cores(unique_cores, threshold, sim_cache)`: list of member
sets of the clusters, bucket by bucket. -/
def _cluster_cores (cores : List String) (θ : ℚ) (c : SimCache) :
    List PySet × SimCache :=
  if cores.length = 0 then ([], c)
  else if cores.length = 1 then ([pySetSingleton 0], c)
  else (bucketsOf cores (pfxLen cores)).foldl (clusterFoldStep cores θ) ([], c)

end S2P

namespace S2P

/-! ## Identity assigner (`make_project_id`, `parse_tender_round`) -/

/-- Characters kept by the sanitiser `[^a-zA-Z0-9一-龥]` (ASCII
alphanumerics and the CJK unified block). -/
def keepChar (c : Char) : Bool :=
  (97 ≤ c.toNat && c.toNat ≤ 122) || (65 ≤ c.toNat && c.toNat ≤ 90) ||
    (48 ≤ c.toNat && c.toNat ≤ 57) || (19968 ≤ c.toNat && c.toNat ≤ 40869)

/-- The sanitised customer slug `re.sub(...,"_",customer)[:40]`. -/
def sanitizeCust (customer : String) : List Char :=
  (customer.data.map (fun c => if keepChar c then c else '_')).take 40

/-- `make_project_id(customer, core)`: slug, underscore, first 12 hex chars
of the md5 of `customer + "\n" + core`. -/
def make_project_id (customer core : String) : String :=
  String.mk (sanitizeCust customer ++ '_' :: (md5HexChars (customer ++ "\n" ++ core)).take 12)

/-- ASCII digit test (`\d` as produced by this pipeline). -/
def isDigitB (c : Char) : Bool := 48 ≤ c.toNat && c.toNat ≤ 57

/-- ASCII letter test (`[A-Za-z]`). -/
def isAlphaB (c : Char) : Bool :=
  (65 ≤ c.toNat && c.toNat ≤ 90) || (97 ≤ c.toNat && c.toNat ≤ 122)

/-- Chinese numeral characters of the round patterns. -/
def cnDigit (c : Char) : Bool :=
  c == '一' || c == '二' || c == '三' || c == '四' || c == '五' ||
    c == '六' || c == '七' || c == '八' || c == '九' || c == '十'

/-- The `[次批期]` class. -/
def sufCls (c : Char) : Bool := c == '次' || c == '批' || c == '期'

/-- The `CN_NUM` table. -/
def CN_NUM : List (String × ℕ) :=
  [("一", 1), ("二", 2), ("三", 3), ("四", 4), ("五", 5),
   ("六", 6), ("七", 7), ("八", 8), ("九", 9), ("十", 10),
   ("百", 100), ("十一", 11), ("十二", 12), ("十三", 13), ("十四", 14),
   ("十五", 15), ("十六", 16), ("十七", 17), ("十八", 18), ("十九", 19),
   ("二十", 20), ("三十", 30), ("四十", 40), ("五十", 50)]

/-- Decimal value of an all-digit char list. -/
def digitsVal (l : List Char) : ℕ := l.foldl (fun n c => 10 * n + (c.toNat - 48)) 0

/-- `_cn_to_int(s)`. -/
def _cn_to_int (s0 : String) : ℕ :=
  let d := pyStrip s0.data
  if d.isEmpty then 1
  else if d.all isDigitB then max 1 (digitsVal d)
  else
    match CN_NUM.lookup (String.mk d) with
    | some v => v
    | none =>
      if String.mk d = "十" then 10
      else if d.length = 2 ∧ (CN_NUM.lookup (String.mk [d.getD 0 ' '])).isSome ∧ d.getD 1 ' ' = '十'
      then (CN_NUM.lookup (String.mk [d.getD 0 ' '])).getD 1 * 10
      else if d.length = 2 ∧ d.getD 0 ' ' = '十' ∧ (CN_NUM.lookup (String.mk [d.getD 1 ' '])).isSome
      then 10 + (CN_NUM.lookup (String.mk [d.getD 1 ' '])).getD 1
      else 1

/-- Match of `[（(]第?([一二三四五六七八九十\d]+)[次批期][）)]` at the head of
the list, returning the captured group. -/
def pat1At : List Char → Option (List Char)
  | [] => none
  | c :: t =>
    if c == '（' || c == '(' then
      let t := if t.headD ' ' == '第' then t.tail else t
      let sp := t.span (fun d => cnDigit d || isDigitB d)
      if sp.1.isEmpty then none
      else
        match sp.2 with
        | d :: u =>
          if sufCls d then
            match u with
            | e :: _ => if e == '）' || e == ')' then some sp.1 else none
            | [] => none
          else none
        | [] => none
    else none

/-- Match of `第([一二三四五六七八九十\d]+)[次批期]` at the head. -/
def pat2At : List Char → Option (List Char)
  | [] => none
  | c :: t =>
    if c == '第' then
      let sp := t.span (fun d => cnDigit d || isDigitB d)
      if sp.1.isEmpty then none
      else if sufCls (sp.2.headD ' ') then some sp.1 else none
    else none

/-- Match of `([一二三四五六七八九十]+)[次批期]` at the head. -/
def pat3At (l : List Char) : Option (List Char) :=
  let sp := l.span cnDigit
  if sp.1.isEmpty then none
  else if sufCls (sp.2.headD ' ') then some sp.1 else none

/-- `pat.search`: try the head matcher at each position, leftmost first. -/
def searchAt (f : List Char → Option (List Char)) : List Char → Option (List Char)
  | [] => f []
  | c :: t =>
    match f (c :: t) with
    | some g => some g
    | none => searchAt f t

/-- `parse_tender_round(project_name)`. -/
def parse_tender_round (name : String) : ℕ :=
  if name.data.isEmpty then 1
  else
    let s := pyStrip name.data
    match searchAt pat1At s with
    | some g => max 1 (_cn_to_int (String.mk g))
    | none =>
      match searchAt pat2At s with
      | some g => max 1 (_cn_to_int (String.mk g))
      | none =>
        match searchAt pat3At s with
        | some g => max 1 (_cn_to_int (String.mk g))
        | none => 1

/-! ## Grouping normaliser (`canonical_core_for_grouping`) -/

/-- Strip a leading `^\d{4}[-]?[A-Za-z]+[-]?\d+[：:\s]*` project code; the
character classes are pairwise disjoint, so the greedy regex reduces to
this sequential scan. -/
def pcStrip (l : List Char) : List Char :=
  let d4 := l.take 4
  if d4.length = 4 && d4.all isDigitB then
    let r1 := l.drop 4
    let r1 := if r1.headD ' ' == '-' then r1.tail else r1
    let sp := r1.span isAlphaB
    if sp.1.isEmpty then l
    else
      let r2 := if sp.2.headD ' ' == '-' then sp.2.tail else sp.2
      let sp2 := r2.span isDigitB
      if sp2.1.isEmpty then l
      else dropLeading (fun c => c == '：' || c == ':' || pyWs c) sp2.2
  else l

/-- Collapse whitespace runs to single spaces (`re.sub(r"\s+", " ", s)`);
the flag records whether the previous char was whitespace. -/
def collapseWsAux : Bool → List Char → List Char
  | _, [] => []
  | inWs, c :: t =>
    if pyWs c then
      if inWs then collapseWsAux true t else ' ' :: collapseWsAux true t
    else c :: collapseWsAux false t

/-- Whitespace-run collapser. -/
def collapseWs (l : List Char) : List Char := collapseWsAux false l

/-- `canonical_core_for_grouping(customer, project_name_core)`. -/
def canonical_core_for_grouping (customer core : String) : String :=
  if core.data.isEmpty then ""
  else
    let s := pyStrip core.data
    let s := pyStrip (pcStrip s)
    let s :=
      if !customer.data.isEmpty && startsWith customer.data s then
        pyStrip (s.drop customer.data.length)
      else s
    let s := s.map (fun c => if c == '（' then '(' else if c == '）' then ')' else c)
    let s := pyStrip (collapseWs s)
    if s.isEmpty then "" else String.mk (s.take 200)

/-! ## Per-customer mapping (`_build_customer_core_to_project_id`) -/

/-- `list(dict.fromkeys(cores))`: first occurrences, input order. -/
def uniqueCores (l : List String) : List String :=
  l.foldl (fun acc s => if s ∈ acc then acc else acc ++ [s]) []

/-- Python `max(strings, key=len)`: first string of maximal length. -/
def pyMaxByLen : List String → String
  | [] => ""
  | x :: t => t.foldl (fun best s => if best.length < s.length then s else best) x

/-- Append `core` to the group of `cust` (model of `defaultdict(list)`). -/
def custAdd (cust core : String) : List (String × List String) → List (String × List String)
  | [] => [(cust, [core])]
  | (q, cs) :: rest =>
    if q == cust then (q, cs ++ [core]) :: rest else (q, cs) :: custAdd cust core rest

/-- Group `(customer, core)` pairs by customer, first-insertion order. -/
def byCustomer (ccs : List (String × String)) : List (String × List String) :=
  ccs.foldl (fun bs p => custAdd p.1 p.2 bs) []

/-- The entries contributed by one customer: for every cluster, the member
keys are enumerated in set-iteration order, the `max(..., key=len)` of that
enumeration is the representative, and all members map to its project
id. -/
def customerEntries (cust : String) (uniq : List String) (clusters : List PySet) :
    List ((String × String) × String) :=
  clusters.flatMap (fun members =>
    let rep := pyMaxByLen ((pySetToList members).map (fun i => uniq.getD i ""))
    let pid := make_project_id cust rep
    (pySetToList members).map (fun i => ((cust, uniq.getD i ""), pid)))

/-- One step of the `for customer, cores in by_customer.items()` loop. -/
def buildFoldStep (θ : ℚ) (acc : List ((String × String) × String) × SimCache)
    (grp : String × List String) : List ((String × String) × String) × SimCache :=
  let uniq := uniqueCores grp.2
  if uniq.length = 0 then acc
  else
    let r := _cluster_cores uniq θ acc.2
    (acc.1 ++ customerEntries grp.1 uniq r.1, r.2)

/-- `_build_customer_core_to_project_id(customer_cores, threshold)` with the
run's similarity cache (created as `{}` by the source, shared across the
customers of one invocation) passed explicitly. -/
def _build_customer_core_to_project_id (ccs : List (String × String)) (θ : ℚ)
    (c : SimCache) : List ((String × String) × String) × SimCache :=
  (byCustomer ccs).foldl (buildFoldStep θ) ([], c)

end S2P

namespace S2P

/-! ## DataFrame model

A pandas frame becomes an ordered association list of named columns over a
small value type.  Dates arrive already parsed (`Val.dateVal none` is
`NaT`); `tender_round` values are the integers the grouping stage emits. -/

/-- Cell values. -/
inductive Val where
  | str (s : String)
  | int (n : ℤ)
  | dateVal (d : Option ℤ)
deriving DecidableEq, Repr

/-- A data frame: a row count and named columns in display order. -/
structure DF where
  nrows : ℕ
  cols : List (String × List Val)
deriving DecidableEq, Repr

/-- Column lookup (column names are unique in pandas). -/
def getCol? (df : DF) (name : String) : Option (List Val) := df.cols.lookup name

/-- Replace the named column in place, or append it (pandas assignment). -/
def setColIn (name : String) (vs : List Val) :
    List (String × List Val) → List (String × List Val)
  | [] => [(name, vs)]
  | (q, ws) :: rest =>
    if q == name then (q, vs) :: rest else (q, ws) :: setColIn name vs rest

/-- Column assignment on a frame. -/
def setCol (df : DF) (name : String) (vs : List Val) : DF :=
  ⟨df.nrows, setColIn name vs df.cols⟩

/-- `df.drop(columns=[name], errors="ignore")`. -/
def dropCol (df : DF) (name : String) : DF :=
  ⟨df.nrows, df.cols.filter (fun p => !(p.1 == name))⟩

/-- `astype(str)` after `fillna("")`. -/
def valToStr : Val → String
  | .str s => s
  | .int n => toString n
  | .dateVal none => "NaT"
  | .dateVal (some d) => "D" ++ toString d

/-- `pd.to_datetime(col, errors="coerce")` on pre-parsed date cells. -/
def valToDate : Val → Option ℤ
  | .dateVal d => d
  | _ => none

/-- `fillna(1).astype(int)` on the integer round column. -/
def valToRound : Val → ℤ
  | .int n => n
  | _ => 1

/-! ## `assign_project_ids` (grouping entry point) -/

/-- Column-name detection for the raw title column. -/
def findNameCol (names : List String) : Option String :=
  if "项目名称" ∈ names then some "项目名称"
  else (names.filter (fun c => strIn "项目" c || strIn "名称" c)).head?

/-- `assign_project_ids` with the run's similarity cache made explicit as
`c0` (the source builds it as a fresh `{}` inside
`_build_customer_core_to_project_id`).  `none` models the unsupported case
of missing required columns. -/
def assign_project_ids_from (c0 : SimCache) (df : DF) :
    Option (List String × List ℕ) :=
  match getCol? df "customer", getCol? df "project_name_core" with
  | some custCol, some coreCol =>
    let custS := custCol.map valToStr
    let coreS := coreCol.map valToStr
    let ccs := List.zipWith (fun c co =>
      let k := canonical_core_for_grouping c co
      (c, if k.data.isEmpty then co else k)) custS coreS
    let mapping := (_build_customer_core_to_project_id ccs SIMILARITY_THRESHOLD c0).1
    let pids := ccs.map (fun p => (mapping.lookup p).getD (make_project_id p.1 p.2))
    let rounds :=
      match findNameCol (df.cols.map (·.1)) with
      | some nc => ((getCol? df nc).getD []).map (fun v => parse_tender_round (valToStr v))
      | none => List.replicate df.nrows 1
    some (pids, rounds)
  | _, _ => none

/-- The source entry point: the cache starts empty on every call. -/
def assign_project_ids (df : DF) : Option (List String × List ℕ) :=
  assign_project_ids_from [] df

/-! ## Temporal linker (`assign_link` in `tender_link.py`) -/

/-- Tender-class record types. -/
def TENDER_RECORD_TYPES : List String :=
  ["招标公告", "采购公告", "竞争性谈判", "竞争性磋商", "询价"]

/-- Bid-class record types. -/
def BID_RECORD_TYPES : List String :=
  ["中标公告", "中标候选人公示", "成交结果", "成交公告", "结果公示"]

/-- Membership in the tender-class vocabulary. -/
def _is_tender (t : String) : Bool := TENDER_RECORD_TYPES.contains t

/-- Membership in the bid-class vocabulary. -/
def _is_bid (t : String) : Bool := BID_RECORD_TYPES.contains t

/-- Set or append a key in a string-keyed dict. -/
def dictSet (k : String) (v : Option String) :
    List (String × Option String) → List (String × Option String)
  | [] => [(k, v)]
  | (q, w) :: rest =>
    if q == k then (q, v) :: rest else (q, w) :: dictSet k v rest

/-- Add to a membership set. -/
def setAdd (x : String) (s : List String) : List String :=
  if x ∈ s then s else x :: s

/-- State of the single ordered pass: open tender per project, the
tenders with at least one linked bid, and the three output arrays. -/
structure LinkState where
  lastTender : List (String × Option String)
  thb : List String
  lt : List String
  rt : List String
  rb : List String

/-- One transition of the linker's pass, processing row `i`. -/
def linkStep (pids rids : List String) (isT isB : List Bool)
    (st : LinkState) (i : ℕ) : LinkState :=
  let pid := pids.getD i ""
  let last0 :=
    if (st.lastTender.lookup pid).isSome then st.lastTender
    else st.lastTender ++ [(pid, none)]
  if isT.getD i false then
    ⟨dictSet pid (some (rids.getD i "")) last0, st.thb,
      st.lt.set i "仅招标", st.rt.set i "", st.rb.set i ""⟩
  else if isB.getD i false then
    match (last0.lookup pid).getD none with
    | some t =>
      ⟨last0, setAdd t st.thb,
        st.lt.set i "已关联", st.rt.set i t, st.rb.set i ""⟩
    | none =>
      ⟨last0, st.thb, st.lt.set i "仅中标", st.rt.set i "", st.rb.set i ""⟩
  else
    ⟨last0, st.thb, st.lt.set i "其他", st.rt.set i "", st.rb.set i ""⟩

/-- Sort key comparison: `project_id` lexicographic, then date with `NaT`
last, then round, stable on the original index (pandas lexsort). -/
def keyLeb (pids : List String) (dates : List (Option ℤ)) (rounds : List ℤ)
    (i j : ℕ) : Bool :=
  let pi' := pids.getD i ""
  let pj := pids.getD j ""
  if pi' ≠ pj then strLtb pi'.data pj.data
  else
    let di := dates.getD i none
    let dj := dates.getD j none
    if di ≠ dj then
      match di, dj with
      | none, _ => false
      | some _, none => true
      | some x, some y => decide (x < y)
    else
      let ri := rounds.getD i 1
      let rj := rounds.getD j 1
      if ri ≠ rj then decide (ri < rj) else decide (i ≤ j)

/-- The processing order: indices sorted by the key. -/
def sortedOrder (pids : List String) (dates : List (Option ℤ))
    (rounds : List ℤ) (n : ℕ) : List ℕ :=
  insSort (keyLeb pids dates rounds) (List.range n)

/-- First-wins map from tender row ids to one linking bid row id, built
from the `related_tender_id` array in original row order. -/
def tenderToOneBid (n : ℕ) (rids rt : List String) : List (String × String) :=
  ((List.range n).filterMap (fun i =>
    if rt.getD i "" ≠ "" then some (rids.getD i "", rt.getD i "") else none)).foldl
    (fun m p => if (m.lookup p.2).isSome then m else m ++ [(p.2, p.1)]) []

/-- The positional row ids `["R0", "R1", ...]`. -/
def rowIds (n : ℕ) : List String := (List.range n).map (fun i => "R" ++ toString i)

/-- Initial state of the linker's pass. -/
def linkInit (n : ℕ) : LinkState :=
  ⟨[], [], List.replicate n "其他", List.replicate n "", List.replicate n ""⟩

/-- The single ordered pass of the linker. -/
def linkMain (pids rids : List String) (isT isB : List Bool) (order : List ℕ)
    (n : ℕ) : LinkState :=
  order.foldl (linkStep pids rids isT isB) (linkInit n)

/-- Post-pass value of `link_type` for row `i`: tenders with at least one
linking bid are relabeled, the rest keep their pass value. -/
def linkLtFinal (isT : List Bool) (rids : List String) (st : LinkState)
    (i : ℕ) : String :=
  if isT.getD i false then
    if rids.getD i "" ∈ st.thb then "已关联" else "仅招标"
  else st.lt.getD i "其他"

/-- Post-pass value of `related_bid_id` for row `i`. -/
def linkRbFinal (isT : List Bool) (rids : List String) (st : LinkState)
    (t2b : List (String × String)) (i : ℕ) : String :=
  if isT.getD i false ∧ rids.getD i "" ∈ st.thb then
    (t2b.lookup (rids.getD i "")).getD ""
  else st.rb.getD i ""

/-- `assign_link(df)`: `none` models the unsupported case of missing
required columns (the source would raise). -/
def assign_link (df : DF) : Option DF :=
  match getCol? df "project_id", getCol? df "record_type",
      getCol? df "发布日期", getCol? df "tender_round" with
  | some pidCol, some rtypeCol, some dateCol, some roundCol =>
    let n := df.nrows
    let rids := rowIds n
    let df1 := setCol df "row_id" (rids.map Val.str)
    let dates := dateCol.map valToDate
    let df2 := setCol df1 "_sort_date" (dates.map Val.dateVal)
    let rounds := roundCol.map valToRound
    let df3 := setCol df2 "_tender_round" (rounds.map Val.int)
    let isT := rtypeCol.map (fun v => _is_tender (valToStr v))
    let df4 := setCol df3 "_is_tender" (isT.map (fun b => Val.int (if b then 1 else 0)))
    let isB := rtypeCol.map (fun v => _is_bid (valToStr v))
    let df5 := setCol df4 "_is_bid" (isB.map (fun b => Val.int (if b then 1 else 0)))
    let pids := pidCol.map valToStr
    let order := sortedOrder pids dates rounds n
    let st := linkMain pids rids isT isB order n
    let df6 := setCol df5 "link_type" (st.lt.map Val.str)
    let df7 := setCol df6 "related_tender_id" (st.rt.map Val.str)
    let df8 := setCol df7 "related_bid_id" (st.rb.map Val.str)
    let t2b := tenderToOneBid n rids st.rt
    let ltFinal := (List.range n).map (linkLtFinal isT rids st)
    let rbFinal := (List.range n).map (linkRbFinal isT rids st t2b)
    let df9 := setCol df8 "link_type" (ltFinal.map Val.str)
    let df10 := setCol df9 "related_bid_id" (rbFinal.map Val.str)
    some (dropCol (dropCol (dropCol (dropCol df10 "_sort_date") "_tender_round")
      "_is_tender") "_is_bid")
  | _, _, _, _ => none

end S2P

namespace S2P

/-! ## Concrete inputs used by the claim theorems -/

/-- Two records of customer `X` whose cleaned canonical keys are both empty
(each title is nothing but a project code), yet whose raw cores differ. -/
def dfEmptyKeys : DF :=
  ⟨2, [("customer", [.str "X", .str "X"]),
       ("project_name_core", [.str "2025-ZH-0098:", .str "2024-AB-0001:"])]⟩

/-- One project with ordered records tender, bid, tender, bid, bid. -/
def dfTBTBB : DF :=
  ⟨5, [("project_id", List.replicate 5 (.str "p")),
       ("record_type", [.str "招标公告", .str "中标公告", .str "招标公告",
         .str "中标公告", .str "中标公告"]),
       ("发布日期", [.dateVal (some 1), .dateVal (some 2), .dateVal (some 3),
         .dateVal (some 4), .dateVal (some 5)]),
       ("tender_round", List.replicate 5 (.int 1))]⟩

/-- One tender followed by two bids whose publication order (row 2 before
row 1) differs from their original row order. -/
def dfOutOfOrder : DF :=
  ⟨3, [("project_id", List.replicate 3 (.str "p")),
       ("record_type", [.str "招标公告", .str "中标公告", .str "中标公告"]),
       ("发布日期", [.dateVal (some 1), .dateVal (some 3), .dateVal (some 2)]),
       ("tender_round", List.replicate 3 (.int 1))]⟩

/-- A frame that already carries a column named `_sort_date`. -/
def dfReserved : DF :=
  ⟨1, [("project_id", [.str "p"]), ("record_type", [.str "x"]),
       ("发布日期", [.dateVal none]), ("tender_round", [.int 1]),
       ("_sort_date", [.str "keep"])]⟩

/-- Four pairwise-similar cores: each is a prefix of the next and all
length ratios are at least 0.8, so every pair scores 0.9. -/
def cores4 : List String :=
  ["abcdefghijklmnopqrst", "abcdefghijklmnopqrstu",
   "abcdefghijklmnopqrstuv", "abcdefghijklmnopqrstuvw"]

/-- Eighty-one distinct cores sharing one 8-char bucket key. -/
def cores81 : List String := (List.range 81).map (fun i => "pppppppp" ++ toString i)

/-- Two cores that cluster together, the first one longer. -/
def cores2 : List String := ["abcdefghijklmnopqrst", "abcdefghijklmnopqr"]

/-- Checker transcribing the claim's words for the post-pass: every tender
row linked by some bid must carry as `related_bid_id` the first linking bid
in ordering-key order (publish date ascending nulls last, then round).
This is the specification side of the refinement comparison; the code side
is `assign_link`. -/
def linkedBidFirstByOrderingSpec (df : DF) : Bool :=
  match assign_link df, getCol? df "project_id", getCol? df "record_type",
      getCol? df "发布日期", getCol? df "tender_round" with
  | some out, some pidCol, some rtypeCol, some dateCol, some roundCol =>
    match getCol? out "related_tender_id", getCol? out "related_bid_id",
        getCol? out "link_type" with
    | some rtC, some rbC, some ltC =>
      let n := df.nrows
      let order := sortedOrder (pidCol.map valToStr) (dateCol.map valToDate)
        (roundCol.map valToRound) n
      (List.range n).all (fun i =>
        if _is_tender (valToStr (rtypeCol.getD i (.str ""))) then
          match order.find? (fun j =>
              valToStr (rtC.getD j (.str "")) == "R" ++ toString i) with
          | some j0 =>
            (valToStr (ltC.getD i (.str "")) == "已关联") &&
              (valToStr (rbC.getD i (.str "")) == "R" ++ toString j0)
          | none => valToStr (ltC.getD i (.str "")) == "仅招标"
        else true)
    | _, _, _ => true
  | _, _, _, _, _ => true

end S2P

namespace S2P

/-- A family of pairwise-distinct customers that all sanitise to the same
40-char slug (one `a` then underscores). -/
def custFam (n : ℕ) : String := String.mk ('a' :: List.replicate (40 + n) '!')

/-- A small grouping input frame (two similar cores for one customer). -/
def dfGroupW : DF :=
  ⟨2, [("customer", [.str "c", .str "c"]),
       ("project_name_core", [.str "abcdefghijklmnopqrst", .str "abcdefghijklmnopqr"])]⟩

/-- A non-empty consistent similarity cache. -/
def cacheW : SimCache := [(("abcdefghi", "abcdefghij"), mkRat 9 10)]

/-- Two records of one customer with empty `project_name_core`. -/
def dfBothEmpty : DF :=
  ⟨2, [("customer", [.str "c", .str "c"]),
       ("project_name_core", [.str "", .str ""])]⟩

end S2P

namespace S2P

set_option maxRecDepth 80000

/-! ## Theorems

Sanity anchors first: the md5 embedding reproduces the RFC 1321 test
vectors, so the project-id computations below are the source's. -/

theorem md5_vector_empty :
    String.mk (md5HexChars "") = "d41d8cd98f00b204e9800998ecf8427e" := by decide

theorem md5_vector_abc :
    String.mk (md5HexChars "abc") = "900150983cd24fb0d6963f7d28e17f72" := by decide

/-- C5: for one project whose records in ordering-key order are
[tender T1, bid B1, tender T2, bid B2, bid B3], the linker yields
T1 linked (`已关联`) with `related_bid_id = B1`, B1 linked with
`related_tender_id = T1`, T2 linked with `related_bid_id = B2`, and both B2
and B3 linked with `related_tender_id = T2` — the open tender persists
across several bids until a new tender arrives. -/
theorem c5_linker_tbtbb :
    (assign_link dfTBTBB).map (fun d =>
      (getCol? d "link_type", getCol? d "related_tender_id", getCol? d "related_bid_id")) =
    some (some [.str "已关联", .str "已关联", .str "已关联", .str "已关联", .str "已关联"],
      some [.str "", .str "R0", .str "", .str "R2", .str "R2"],
      some [.str "R1", .str "", .str "R3", .str "", .str ""]) := by decide

/-- C1 counterexample: in `dfOutOfOrder` the tender row 0 is linked to by
both bids (rows 1 and 2); the ordering-key order is `[0, 2, 1]`, so the
first linking bid by the ordering key is row 2, but the code fills
`related_bid_id` with `R1`, the first linking bid in original row order. -/
theorem c1_counterexample :
    linkedBidFirstByOrderingSpec dfOutOfOrder = false ∧
    (assign_link dfOutOfOrder).map (fun d =>
      (getCol? d "related_tender_id", getCol? d "related_bid_id")) =
      some (some [.str "", .str "R0", .str "R0"], some [.str "R1", .str "", .str ""]) ∧
    sortedOrder ["p", "p", "p"] [some 1, some 3, some 2] [1, 1, 1] 3 = [0, 2, 1] := by
  refine ⟨by decide, by decide, by decide⟩

/-- C2 counterexample: 81 records with the same canonical key are deduped
to one unique key before clustering, so clustering yields one cluster, not
81 singleton clusters. -/
theorem c2_counterexample :
    ((_cluster_cores (uniqueCores (List.replicate 81 "k")) SIMILARITY_THRESHOLD []).1).length = 1 ∧
    (1 : ℕ) ≠ 81 := by
  refine ⟨by decide, by decide⟩

/-- C3 counterexample: four clusters whose representatives are pairwise
similar (every pair scores 0.9 ≥ 0.88).  A pass that unioned every
qualifying pair would leave one cluster, but each code pass performs only
the first union, so after the 2 passes two clusters remain. -/
theorem c3_counterexample :
    (∀ i ∈ [0, 1, 2, 3], ∀ j ∈ [0, 1, 2, 3], i < j →
      SIMILARITY_THRESHOLD ≤ simPure (cores4.getD i "") (cores4.getD j "")) ∧
    ((mergeTwiceC cores4 SIMILARITY_THRESHOLD
      [(0, pySetSingleton 0), (1, pySetSingleton 1), (2, pySetSingleton 2),
        (3, pySetSingleton 3)] []).1).length = 2 ∧
    (2 : ℕ) ≠ 1 := by
  refine ⟨by decide, by decide, by decide⟩

/-- C4 counterexample: two records of customer `X` whose cleaned canonical
keys are both empty fall back to their distinct raw cores and receive
distinct project ids. -/
theorem c4_counterexample :
    canonical_core_for_grouping "X" "2025-ZH-0098:" = "" ∧
    canonical_core_for_grouping "X" "2024-AB-0001:" = "" ∧
    assign_project_ids dfEmptyKeys = some (["X_832d37adb19c", "X_2317f563c28a"], [1, 1]) ∧
    ("X_832d37adb19c" : String) ≠ "X_2317f563c28a" := by
  refine ⟨by decide, by decide, by decide, by decide⟩

/-- C10 counterexample: an input frame already carrying a `_sort_date`
column loses it — the output is not the input with columns only added. -/
theorem c10_counterexample :
    getCol? dfReserved "_sort_date" = some [.str "keep"] ∧
    (assign_link dfReserved).map (fun d => getCol? d "_sort_date") = some none := by
  refine ⟨by decide, by decide⟩

end S2P

namespace S2P

/-- A hit in an association-list lookup is a member of the list. -/
theorem lookup_mem {α β : Type} [BEq α] [LawfulBEq α] :
    ∀ (l : List (α × β)) (k : α) (r : β), l.lookup k = some r → (k, r) ∈ l := by
  intro l k r
  induction l with
  | nil => intro h; simp [List.lookup] at h
  | cons p t ih =>
    intro h
    cases p with
    | mk x y =>
      by_cases hk : k == x
      · simp [List.lookup, hk] at h
        simp [← eq_of_beq hk, h]
      · simp only [List.lookup, hk] at h
        exact List.mem_cons_of_mem _ (ih h)

/-- `startsWith` matches the prefix relation. -/
theorem startsWith_iff : ∀ (a b : List Char), startsWith a b = true ↔ a <+: b := by
  intro a
  induction a with
  | nil => intro b; exact iff_of_true rfl List.nil_prefix
  | cons c cs ih =>
    intro b
    cases b with
    | nil =>
      constructor
      · intro h; cases h
      · intro h; exact absurd (List.eq_nil_of_prefix_nil h) (by simp)
    | cons d ds =>
      simp only [startsWith, List.cons_prefix_cons, Bool.and_eq_true, beq_iff_eq]
      exact and_congr Iff.rfl (ih ds)

/-- `subIn` matches the infix relation (Python `a in b`). -/
theorem subIn_iff : ∀ (a b : List Char), subIn a b = true ↔ a <:+: b := by
  intro a b
  induction b with
  | nil =>
    simp only [subIn, startsWith_iff]
    constructor
    · intro h; rw [List.eq_nil_of_prefix_nil h]
    · intro h; rw [List.eq_nil_of_infix_nil h]
  | cons c t ih =>
    simp only [subIn, Bool.or_eq_true, startsWith_iff, ih, List.infix_cons_iff]

/-- `mkRat` is the cast quotient. -/
theorem mkRatQ (n : ℤ) (d : ℕ) : mkRat n d = (n : ℚ) / (d : ℚ) := by
  rw [Rat.mkRat_eq_divInt, Rat.divInt_eq_div]
  norm_num

/-- With a consistent cache, the normalised score is the cache-free one,
and consistency is preserved. -/
theorem simNorm_eq (p : String × String) (c : SimCache) (hc : CacheOK c) :
    (simNorm p c).1 = simPureNorm p ∧ CacheOK (simNorm p c).2 := by
  unfold simNorm simPureNorm
  by_cases h1 : mkRat (p.1.length : ℤ) p.2.length < mkRat 1 2
  · rw [if_pos h1, if_pos h1]; exact ⟨rfl, hc⟩
  · rw [if_neg h1, if_neg h1]
    rcases hl : List.lookup p c with _ | r
    · simp only
      by_cases h2 : c.length < 50000
      · rw [if_pos h2]
        refine ⟨rfl, ?_⟩
        intro k r hm
        rcases List.mem_cons.1 hm with h | h
        · cases h; rfl
        · exact hc _ _ h
      · rw [if_neg h2]; exact ⟨rfl, hc⟩
    · exact ⟨(hc _ _ (lookup_mem c _ _ hl)), hc⟩

/-- With a consistent cache, `_similarity` returns the pure score, and
the returned cache is again consistent. -/
theorem sim_eq_pure (a b : String) (c : SimCache) (hc : CacheOK c) :
    (_similarity a b c).1 = simPure a b ∧ CacheOK (_similarity a b c).2 := by
  unfold _similarity simPure
  by_cases h1 : (a.data.isEmpty || b.data.isEmpty) = true
  · rw [if_pos h1, if_pos h1]; exact ⟨rfl, hc⟩
  · rw [if_neg h1, if_neg h1]
    exact simNorm_eq _ c hc

/-- The post-normalisation score under containment with ratio at least 0.8
is exactly 0.9. -/
theorem simCore_contain (a b : String) (hsub : strIn a b = true)
    (hr : mkRat (8 : ℤ) 10 ≤ mkRat (a.length : ℤ) b.length) :
    simCore a b = mkRat 9 10 := by
  unfold simCore
  rw [if_pos ⟨hsub, hr⟩]

/-- Nonempty data gives positive length. -/
theorem length_pos_of_ne (a : String) (ha : a.data ≠ []) : 0 < a.length := by
  cases had : a.data with
  | nil => exact absurd had ha
  | cons x t => simp [String.length, had]

/-- The pure score of a containment pair with length ratio at least 0.8,
in both argument orders, is 0.9. -/
theorem simPure_contain (a b : String) (ha : a.data ≠ []) (hb : b.data ≠ [])
    (hlen : a.length ≤ b.length) (hsub : strIn a b = true)
    (hr : mkRat (8 : ℤ) 10 ≤ mkRat (a.length : ℤ) b.length) :
    simPure a b = mkRat 9 10 ∧ simPure b a = mkRat 9 10 := by
  have hth : mkRat (1 : ℤ) 2 < mkRat (8 : ℤ) 10 := by decide
  have hnotlt : ¬ mkRat (a.length : ℤ) b.length < mkRat (1 : ℤ) 2 :=
    not_lt_of_ge (le_of_lt (lt_of_lt_of_le hth hr))
  have hne : ¬ (a.data.isEmpty || b.data.isEmpty) = true := by simp [ha, hb]
  have hne' : ¬ (b.data.isEmpty || a.data.isEmpty) = true := by simp [ha, hb]
  constructor
  · unfold simPure
    rw [if_neg hne]
    have hswap : ¬ a.length > b.length := not_lt_of_ge hlen
    rw [if_neg hswap]
    unfold simPureNorm
    rw [if_neg hnotlt]
    exact simCore_contain a b hsub hr
  · unfold simPure
    rw [if_neg hne']
    by_cases hgt : b.length > a.length
    · rw [if_pos hgt]
      unfold simPureNorm
      rw [if_neg hnotlt]
      exact simCore_contain a b hsub hr
    · have heq : a.length = b.length := le_antisymm hlen (not_lt.1 hgt)
      have hab : a = b := by
        have hinf : a.data <:+: b.data := (subIn_iff a.data b.data).1 hsub
        have hd : a.data = b.data := hinf.eq_of_length heq
        cases a; cases b; exact congrArg String.mk hd
      subst hab
      rw [if_neg hgt]
      unfold simPureNorm
      rw [if_neg hnotlt]
      exact simCore_contain a a hsub hr

/-- C6: for two non-empty keys where the shorter is a substring of the
longer with length ratio at least 0.8, the similarity scorer returns
exactly 0.9 in either argument order; in particular every non-empty key
scores exactly 0.9 — not 1 — against itself. -/
theorem c6_containment_similarity (a b : String) (c : SimCache)
    (ha : a.data ≠ []) (hb : b.data ≠ []) (hc : CacheOK c)
    (hlen : a.length ≤ b.length) (hsub : strIn a b = true)
    (hr : mkRat (8 : ℤ) 10 ≤ mkRat (a.length : ℤ) b.length) :
    (_similarity a b c).1 = mkRat 9 10 ∧ (_similarity b a c).1 = mkRat 9 10 ∧
    (_similarity a a c).1 = mkRat 9 10 ∧ mkRat (9 : ℤ) 10 ≠ mkRat 1 1 := by
  obtain ⟨h1, h2⟩ := simPure_contain a b ha hb hlen hsub hr
  have hsuba : strIn a a = true := (subIn_iff a.data a.data).2 (List.infix_refl a.data)
  have hra : mkRat (8 : ℤ) 10 ≤ mkRat (a.length : ℤ) a.length := by
    have h0 : (a.length : ℚ) ≠ 0 := by
      exact_mod_cast (length_pos_of_ne a ha).ne'
    rw [mkRatQ, mkRatQ]
    push_cast
    rw [div_self h0]
    norm_num
  obtain ⟨h3, _⟩ := simPure_contain a a ha ha le_rfl hsuba hra
  rw [(sim_eq_pure a b c hc).1, (sim_eq_pure b a c hc).1, (sim_eq_pure a a c hc).1]
  exact ⟨h1, h2, h3, by decide⟩

/-- Witness for C6 at a concrete containment pair and a concrete
consistent cache. -/
theorem c6_witness :
    strIn "abcdefghi" "abcdefghij" = true ∧
    (_similarity "abcdefghi" "abcdefghij" cacheW).1 = mkRat 9 10 ∧
    (_similarity "abcdefghi" "abcdefghi" cacheW).1 = mkRat 9 10 := by
  have hc : CacheOK cacheW := by
    intro k r hm
    rcases List.mem_cons.1 hm with h | h
    · cases h; decide
    · exact absurd h (List.not_mem_nil _)
  have := c6_containment_similarity "abcdefghi" "abcdefghij" cacheW
    (by decide) (by decide) hc (by decide) (by decide) (by decide)
  exact ⟨by decide, this.1, this.2.2.1⟩

end S2P

namespace S2P

set_option maxRecDepth 80000

/-- The bucket fold only ever appends clusters. -/
theorem clusterFold_extends (cores : List String) (θ : ℚ) :
    ∀ (bs : List (List Char × List ℕ)) (acc : List PySet × SimCache),
      ∃ suf, (bs.foldl (clusterFoldStep cores θ) acc).1 = acc.1 ++ suf := by
  intro bs
  induction bs with
  | nil => intro acc; exact ⟨[], by simp⟩
  | cons x rest ih =>
    intro acc
    obtain ⟨suf, hs⟩ := ih (clusterFoldStep cores θ acc x)
    refine ⟨(clusterBucketC cores θ x.2 acc.2).1 ++ suf, ?_⟩
    rw [List.foldl_cons, hs]
    simp [clusterFoldStep]

/-- An oversized bucket in the fold contributes exactly its members as
singleton clusters, as one contiguous block. -/
theorem clusterFold_bigBucket (cores : List String) (θ : ℚ) :
    ∀ (bs : List (List Char × List ℕ)) (acc : List PySet × SimCache)
      (b : List Char × List ℕ), b ∈ bs → 80 < b.2.length →
      ∃ pre post, (bs.foldl (clusterFoldStep cores θ) acc).1 =
        pre ++ b.2.map (fun i => pySetSingleton i) ++ post := by
  intro bs
  induction bs with
  | nil => intro acc b hb; exact absurd hb (List.not_mem_nil _)
  | cons x rest ih =>
    intro acc b hb hlen
    rcases List.mem_cons.1 hb with hx | hx
    · subst hx
      obtain ⟨suf, hs⟩ := clusterFold_extends cores θ rest (clusterFoldStep cores θ acc b)
      refine ⟨acc.1, suf, ?_⟩
      rw [List.foldl_cons, hs]
      have hne : b.2.isEmpty = false := by
        cases hb2 : b.2 with
        | nil => rw [hb2] at hlen; simp at hlen
        | cons y t => rfl
      have hstep : clusterFoldStep cores θ acc b =
          (acc.1 ++ b.2.map (fun i => pySetSingleton i), acc.2) := by
        simp only [clusterFoldStep, clusterBucketC, hne, Bool.false_eq_true, if_false, if_pos hlen]
      rw [hstep, List.append_assoc]
    · exact ih (clusterFoldStep cores θ acc x) b hx hlen

/-- C2 (amended): keys are deduplicated per customer before clustering, so
81 records with one identical key yield a single cluster over the single
unique key and one shared mapping entry (hence one shared project id); the
`> 80` bucket cap applies to the deduplicated keys of a bucket, whose
members then all become singleton clusters with no similarity comparison. -/
theorem c2_dedup_and_bucket_cap :
    (_cluster_cores (uniqueCores (List.replicate 81 "k")) SIMILARITY_THRESHOLD []).1 =
      [pySetSingleton 0] ∧
    (_build_customer_core_to_project_id (List.replicate 81 ("c", "k"))
      SIMILARITY_THRESHOLD []).1 = [(("c", "k"), make_project_id "c" "k")] ∧
    ∀ (cores : List String) (θ : ℚ) (c : SimCache) (b : List Char × List ℕ),
      2 ≤ cores.length → b ∈ bucketsOf cores (pfxLen cores) → 80 < b.2.length →
      ∃ pre post, (_cluster_cores cores θ c).1 =
        pre ++ b.2.map (fun i => pySetSingleton i) ++ post := by
  refine ⟨by decide, by decide, ?_⟩
  intro cores θ c b hn hb hlen
  unfold _cluster_cores
  rw [if_neg (by omega), if_neg (by omega)]
  exact clusterFold_bigBucket cores θ _ ([], c) b hb hlen

/-- Witness for the bucket-cap part of C2: 81 distinct cores sharing one
8-char bucket key all become singleton clusters. -/
theorem c2_witness :
    2 ≤ cores81.length ∧ 80 < (List.range 81).length ∧
    (("pppppppp".data, List.range 81) ∈ bucketsOf cores81 (pfxLen cores81)) ∧
    ∃ pre post, (_cluster_cores cores81 SIMILARITY_THRESHOLD []).1 =
      pre ++ (List.range 81).map (fun i => pySetSingleton i) ++ post := by
  refine ⟨by decide, by decide, by decide,
    c2_dedup_and_bucket_cap.2.2 cores81 SIMILARITY_THRESHOLD []
      ("pppppppp".data, List.range 81) (by decide) (by decide) (by decide)⟩

/-- C3 (amended): each merge pass unions only the first qualifying pair in
scan order, yet three clusters with pairwise-similar representatives still
collapse to one cluster over the two passes: pass one merges the first two,
pass two merges the third into them. -/
theorem c3_three_clusters_merge (cores : List String) (θ : ℚ) (c : SimCache)
    (hc : CacheOK c) (r1 r2 r3 : ℕ) (m1 m2 m3 : PySet)
    (h12 : θ ≤ simPure (cores.getD r1 "") (cores.getD r2 ""))
    (h13 : θ ≤ simPure (cores.getD r1 "") (cores.getD r3 ""))
    (_h23 : θ ≤ simPure (cores.getD r2 "") (cores.getD r3 "")) :
    (mergeTwiceC cores θ [(r1, m1), (r2, m2), (r3, m3)] c).1 =
      [(r1, pySetMerge (pySetMerge m1 m2) m3)] := by
  have hk12 := (sim_eq_pure (cores.getD r1 "") (cores.getD r2 "") c hc).2
  have hscan1 : innerScanC cores θ r1 [(r2, m2), (r3, m3)] c =
      (some 0, (_similarity (cores.getD r1 "") (cores.getD r2 "") c).2) := by
    simp only [innerScanC]
    rw [(sim_eq_pure (cores.getD r1 "") (cores.getD r2 "") c hc).1, if_pos h12]
  have hstep1 : mergePassC cores θ [(r1, m1), (r2, m2), (r3, m3)] c =
      ([(r1, pySetMerge m1 m2), (r3, m3)],
        (_similarity (cores.getD r1 "") (cores.getD r2 "") c).2) := by
    simp only [mergePassC, hscan1, List.getD_cons_zero, List.eraseIdx_cons_zero]
  have hscan2 : innerScanC cores θ r1 [(r3, m3)]
      (_similarity (cores.getD r1 "") (cores.getD r2 "") c).2 =
      (some 0, (_similarity (cores.getD r1 "") (cores.getD r3 "")
        (_similarity (cores.getD r1 "") (cores.getD r2 "") c).2).2) := by
    simp only [innerScanC]
    rw [(sim_eq_pure (cores.getD r1 "") (cores.getD r3 "") _ hk12).1, if_pos h13]
  have hstep2 : mergePassC cores θ [(r1, pySetMerge m1 m2), (r3, m3)]
      (_similarity (cores.getD r1 "") (cores.getD r2 "") c).2 =
      ([(r1, pySetMerge (pySetMerge m1 m2) m3)],
        (_similarity (cores.getD r1 "") (cores.getD r3 "")
          (_similarity (cores.getD r1 "") (cores.getD r2 "") c).2).2) := by
    simp only [mergePassC, hscan2, List.getD_cons_zero, List.eraseIdx_cons_zero]
  unfold mergeTwiceC
  rw [hstep1, hstep2]

/-- Witness for C3 (amended) at three concrete pairwise-similar cores. -/
theorem c3_witness :
    SIMILARITY_THRESHOLD ≤ simPure (cores4.getD 0 "") (cores4.getD 1 "") ∧
    (mergeTwiceC cores4 SIMILARITY_THRESHOLD
      [(0, pySetSingleton 0), (1, pySetSingleton 1), (2, pySetSingleton 2)] []).1 =
      [(0, pySetMerge (pySetMerge (pySetSingleton 0) (pySetSingleton 1))
        (pySetSingleton 2))] := by
  refine ⟨by decide, c3_three_clusters_merge cores4 SIMILARITY_THRESHOLD []
    (fun k r h => absurd h (List.not_mem_nil _)) 0 1 2
    (pySetSingleton 0) (pySetSingleton 1) (pySetSingleton 2)
    (by decide) (by decide) (by decide)⟩

end S2P

namespace S2P

set_option maxRecDepth 80000

/-- Cleaning an empty core yields the empty key. -/
theorem canonical_core_empty (c : String) : canonical_core_for_grouping c "" = "" := rfl

/-- C4 (amended): rows of one customer whose `project_name_core` is empty
all receive the same project id — their grouping key is the empty string,
so the rows read the same mapping entry.  (Rows whose cleaned key is empty
but whose raw core is non-empty fall back to the raw core and need not
share an id; see the counterexample.) -/
theorem c4_empty_core_same_pid (df : DF) (custCol coreCol : List Val)
    (pids : List String) (rounds : List ℕ) (i j : ℕ)
    (hcust : getCol? df "customer" = some custCol)
    (hcore : getCol? df "project_name_core" = some coreCol)
    (hout : assign_project_ids df = some (pids, rounds))
    (hi : i < custCol.length) (hj : j < custCol.length)
    (hi2 : i < coreCol.length) (hj2 : j < coreCol.length)
    (hsame : valToStr (custCol.getD i (.str "")) = valToStr (custCol.getD j (.str "")))
    (hei : valToStr (coreCol.getD i (.str "x")) = "")
    (hej : valToStr (coreCol.getD j (.str "x")) = "") :
    pids.getD i "" = pids.getD j "" := by
  unfold assign_project_ids assign_project_ids_from at hout
  rw [hcust, hcore] at hout
  simp only [Option.some.injEq, Prod.mk.injEq] at hout
  obtain ⟨hp, hr⟩ := hout
  subst hp
  have hiz : i < (List.zipWith (fun c co =>
      let k := canonical_core_for_grouping c co
      ((c : String), if k.data.isEmpty then co else k))
      (custCol.map valToStr) (coreCol.map valToStr)).length := by
    simp only [List.length_zipWith, List.length_map]
    omega
  have hjz : j < (List.zipWith (fun c co =>
      let k := canonical_core_for_grouping c co
      ((c : String), if k.data.isEmpty then co else k))
      (custCol.map valToStr) (coreCol.map valToStr)).length := by
    simp only [List.length_zipWith, List.length_map]
    omega
  rw [List.getD_eq_getElem _ _ (by simpa using hiz), List.getD_eq_getElem _ _ (by simpa using hjz)]
  rw [List.getElem_map, List.getElem_map, List.getElem_zipWith, List.getElem_zipWith]
  rw [List.getD_eq_getElem custCol (.str "") hi, List.getD_eq_getElem custCol (.str "") hj] at hsame
  rw [List.getD_eq_getElem coreCol (.str "x") hi2] at hei
  rw [List.getD_eq_getElem coreCol (.str "x") hj2] at hej
  rw [List.getElem_map, List.getElem_map, List.getElem_map, List.getElem_map]
  rw [hei, hej, hsame]

/-- Witness for C4 (amended): two empty-core rows of customer `c` share a
project id. -/
theorem c4_witness :
    ∃ pids rounds, assign_project_ids dfBothEmpty = some (pids, rounds) ∧
      pids.getD 0 "" = pids.getD 1 "" := by
  refine ⟨["c_2cd6ee2c70b0", "c_2cd6ee2c70b0"], [1, 1], by decide, ?_⟩
  exact c4_empty_core_same_pid dfBothEmpty [.str "c", .str "c"] [.str "", .str ""]
    ["c_2cd6ee2c70b0", "c_2cd6ee2c70b0"] [1, 1] 0 1 (by decide) (by decide) (by decide)
    (by decide) (by decide) (by decide) (by decide) rfl rfl rfl

end S2P

namespace S2P

set_option maxRecDepth 80000

/-- The hex rendering doubles lengths. -/
theorem flatMap_hexByte_length : ∀ l : List ℕ, (l.flatMap hexByte).length = 2 * l.length := by
  intro l
  induction l with
  | nil => rfl
  | cons x t ih =>
    simp only [List.flatMap_cons, List.length_append, ih, hexByte]
    simp
    omega

/-- The digest has sixteen bytes. -/
theorem md5BytesList_length (s : String) : (md5BytesList s).length = 16 := rfl

/-- The hexdigest has 32 characters. -/
theorem md5HexChars_length (s : String) : (md5HexChars s).length = 32 := by
  rw [md5HexChars, flatMap_hexByte_length, md5BytesList_length]

/-- Taking `2k` hex chars is rendering the first `k` bytes. -/
theorem take_flatMap_hexByte : ∀ (l : List ℕ) (k : ℕ),
    (l.flatMap hexByte).take (2 * k) = (l.take k).flatMap hexByte := by
  intro l
  induction l with
  | nil => intro k; simp
  | cons x t ih =>
    intro k
    cases k with
    | zero => simp
    | succ m =>
      show ((hexByte x ++ t.flatMap hexByte).take (2 * (m + 1))) = _
      have h2 : 2 * (m + 1) = (2 * m + 1) + 1 := by omega
      simp only [hexByte, List.cons_append, List.nil_append, h2, List.take_succ_cons,
        List.take_succ_cons, ih m]
      rfl

/-- C8 (amended): the hash inputs of two different customers always differ
for the same representative key, and customers with different sanitised
slugs always receive different project ids; project ids coincide only when
both the slugs and the 12-hex-char truncated digests collide. -/
theorem c8_slug_disambiguates :
    (∀ c1 c2 core : String, c1 ≠ c2 → c1 ++ "\n" ++ core ≠ c2 ++ "\n" ++ core) ∧
    (∀ c1 c2 core1 core2 : String, sanitizeCust c1 ≠ sanitizeCust c2 →
      make_project_id c1 core1 ≠ make_project_id c2 core2) := by
  constructor
  · intro c1 c2 core hne he
    apply hne
    have hd := congrArg String.data he
    rw [String.data_append, String.data_append, String.data_append, String.data_append] at hd
    have h1 : c1.data ++ "\n".data = c2.data ++ "\n".data := List.append_cancel_right hd
    have h2 : c1.data = c2.data := List.append_cancel_right h1
    cases c1; cases c2; exact congrArg String.mk h2
  · intro c1 c2 core1 core2 hne he
    apply hne
    have hd := congrArg String.data he
    simp only [make_project_id] at hd
    have hlen : ('_' :: (md5HexChars (c1 ++ "\n" ++ core1)).take 12).length =
        ('_' :: (md5HexChars (c2 ++ "\n" ++ core2)).take 12).length := by
      simp only [List.length_cons, List.length_take, md5HexChars_length]
    exact (List.append_inj' hd hlen).1

/-- Witness for C8 (amended) at two concrete customers. -/
theorem c8_witness :
    ("a" : String) ≠ "b" ∧ sanitizeCust "a" ≠ sanitizeCust "b" ∧
    ("a" ++ "\n" ++ "k" : String) ≠ "b" ++ "\n" ++ "k" ∧
    make_project_id "a" "k" ≠ make_project_id "b" "k" := by
  refine ⟨by decide, by decide, ?_, ?_⟩
  · exact c8_slug_disambiguates.1 "a" "b" "k" (by decide)
  · exact c8_slug_disambiguates.2 "a" "b" "k" "k" (by decide)

/-- The slug of every `custFam` member is one `a` and 39 underscores. -/
theorem sanitize_custFam (n : ℕ) :
    sanitizeCust (custFam n) = 'a' :: List.replicate 39 '_' := by
  show ((('a' :: List.replicate (40 + n) '!').map
    (fun c => if keepChar c then c else '_')).take 40) = _
  rw [List.map_cons, List.map_replicate]
  have h1 : (if keepChar 'a' then 'a' else '_') = 'a' := by decide
  have h2 : (if keepChar '!' then '!' else '_') = '_' := by decide
  rw [h1, h2, List.take_succ_cons, List.take_replicate]
  have : min 39 (40 + n) = 39 := by omega
  rw [this]

/-- C8 counterexample: by pigeonhole over the 2^48 possible truncated
digests, two distinct customers (with equal slugs) share a project id for
the same (empty) representative key — ids are not injective across
customers. -/
theorem c8_counterexample :
    ∃ c1 c2 : String, c1 ≠ c2 ∧ make_project_id c1 "" = make_project_id c2 "" := by
  obtain ⟨a, b, hab, hfab⟩ := Finite.exists_ne_map_eq_of_infinite
    (fun n : ℕ =>
      ((⟨(md5Words (custFam n ++ "\n" ++ "")).1 % 256, Nat.mod_lt _ (by norm_num)⟩ : Fin 256),
       (⟨(md5Words (custFam n ++ "\n" ++ "")).1 / 256 % 256, Nat.mod_lt _ (by norm_num)⟩ : Fin 256),
       (⟨(md5Words (custFam n ++ "\n" ++ "")).1 / 65536 % 256, Nat.mod_lt _ (by norm_num)⟩ : Fin 256),
       (⟨(md5Words (custFam n ++ "\n" ++ "")).1 / 16777216 % 256, Nat.mod_lt _ (by norm_num)⟩ : Fin 256),
       (⟨(md5Words (custFam n ++ "\n" ++ "")).2.1 % 256, Nat.mod_lt _ (by norm_num)⟩ : Fin 256),
       (⟨(md5Words (custFam n ++ "\n" ++ "")).2.1 / 256 % 256, Nat.mod_lt _ (by norm_num)⟩ : Fin 256)))
  refine ⟨custFam a, custFam b, ?_, ?_⟩
  · intro h
    apply hab
    have hl := congrArg (fun s => s.data.length) h
    simp only [custFam, List.length_cons, List.length_replicate] at hl
    omega
  · have e1 : (md5Words (custFam a ++ "\n" ++ "")).1 % 256 =
        (md5Words (custFam b ++ "\n" ++ "")).1 % 256 := congrArg (fun x => x.1.val) hfab
    have e2 : (md5Words (custFam a ++ "\n" ++ "")).1 / 256 % 256 =
        (md5Words (custFam b ++ "\n" ++ "")).1 / 256 % 256 := congrArg (fun x => x.2.1.val) hfab
    have e3 : (md5Words (custFam a ++ "\n" ++ "")).1 / 65536 % 256 =
        (md5Words (custFam b ++ "\n" ++ "")).1 / 65536 % 256 := congrArg (fun x => x.2.2.1.val) hfab
    have e4 : (md5Words (custFam a ++ "\n" ++ "")).1 / 16777216 % 256 =
        (md5Words (custFam b ++ "\n" ++ "")).1 / 16777216 % 256 := congrArg (fun x => x.2.2.2.1.val) hfab
    have e5 : (md5Words (custFam a ++ "\n" ++ "")).2.1 % 256 =
        (md5Words (custFam b ++ "\n" ++ "")).2.1 % 256 := congrArg (fun x => x.2.2.2.2.1.val) hfab
    have e6 : (md5Words (custFam a ++ "\n" ++ "")).2.1 / 256 % 256 =
        (md5Words (custFam b ++ "\n" ++ "")).2.1 / 256 % 256 := congrArg (fun x => x.2.2.2.2.2.val) hfab
    have htake : (md5BytesList (custFam a ++ "\n" ++ "")).take 6 =
        (md5BytesList (custFam b ++ "\n" ++ "")).take 6 := by
      have hsh : ∀ s : String, (md5BytesList s).take 6 =
          [(md5Words s).1 % 256, (md5Words s).1 / 256 % 256, (md5Words s).1 / 65536 % 256,
           (md5Words s).1 / 16777216 % 256, (md5Words s).2.1 % 256, (md5Words s).2.1 / 256 % 256] :=
        fun s => rfl
      rw [hsh, hsh, e1, e2, e3, e4, e5, e6]
    unfold make_project_id
    apply congrArg String.mk
    rw [sanitize_custFam, sanitize_custFam]
    have hhex : (md5HexChars (custFam a ++ "\n" ++ "")).take 12 =
        (md5HexChars (custFam b ++ "\n" ++ "")).take 12 := by
      have h12 : (12 : ℕ) = 2 * 6 := rfl
      rw [md5HexChars, md5HexChars, h12, take_flatMap_hexByte, take_flatMap_hexByte, htake]
    rw [hhex]

end S2P

namespace S2P

set_option maxRecDepth 80000

/-- The empty cache is consistent. -/
theorem cacheOK_nil : CacheOK [] := fun _ _ h => absurd h (List.not_mem_nil _)

/-- The concrete witness cache is consistent. -/
theorem cacheOK_cacheW : CacheOK cacheW := by
  intro k r hm
  rcases List.mem_cons.1 hm with h | h
  · cases h; decide
  · exact absurd h (List.not_mem_nil _)

/-- The greedy inner loop preserves cache consistency. -/
theorem tryAssign_ok (cores : List String) (θ : ℚ) (idx : ℕ) :
    ∀ (cls : List (ℕ × PySet)) (c : SimCache), CacheOK c →
      CacheOK (tryAssignC cores θ idx cls c).2.2 := by
  intro cls
  induction cls with
  | nil => intro c hc; exact hc
  | cons cl rest ih =>
    intro c hc
    simp only [tryAssignC]
    by_cases h : θ ≤ (_similarity (cores.getD idx "") (cores.getD cl.1 "") c).1
    · rw [if_pos h]; exact (sim_eq_pure _ _ c hc).2
    · rw [if_neg h]; exact ih _ (sim_eq_pure _ _ c hc).2

/-- The greedy inner loop's visible outputs do not depend on which
consistent cache is used. -/
theorem tryAssign_eq (cores : List String) (θ : ℚ) (idx : ℕ) :
    ∀ (cls : List (ℕ × PySet)) (c c' : SimCache), CacheOK c → CacheOK c' →
      (tryAssignC cores θ idx cls c).1 = (tryAssignC cores θ idx cls c').1 ∧
      (tryAssignC cores θ idx cls c).2.1 = (tryAssignC cores θ idx cls c').2.1 := by
  intro cls
  induction cls with
  | nil => intro c c' _ _; exact ⟨rfl, rfl⟩
  | cons cl rest ih =>
    intro c c' hc hc'
    simp only [tryAssignC]
    rw [(sim_eq_pure (cores.getD idx "") (cores.getD cl.1 "") c hc).1,
      (sim_eq_pure (cores.getD idx "") (cores.getD cl.1 "") c' hc').1]
    by_cases h : θ ≤ simPure (cores.getD idx "") (cores.getD cl.1 "")
    · rw [if_pos h, if_pos h]; exact ⟨rfl, rfl⟩
    · rw [if_neg h, if_neg h]
      obtain ⟨h1, h2⟩ := ih _ _ ((sim_eq_pure _ _ c hc).2) ((sim_eq_pure _ _ c' hc').2)
      exact ⟨by rw [h1], by rw [h2]⟩

/-- The greedy pass preserves cache consistency. -/
theorem greedy_ok (cores : List String) (θ : ℚ) :
    ∀ (order : List ℕ) (cls : List (ℕ × PySet)) (c : SimCache), CacheOK c →
      CacheOK (greedyC cores θ order cls c).2 := by
  intro order
  induction order with
  | nil => intro cls c hc; exact hc
  | cons idx rest ih =>
    intro cls c hc
    simp only [greedyC]
    by_cases h : (tryAssignC cores θ idx cls c).2.1 = true
    · rw [if_pos h]; exact ih _ _ (tryAssign_ok cores θ idx cls c hc)
    · rw [if_neg h]; exact ih _ _ (tryAssign_ok cores θ idx cls c hc)

/-- The greedy pass's clusters do not depend on which consistent cache is
used. -/
theorem greedy_eq (cores : List String) (θ : ℚ) :
    ∀ (order : List ℕ) (cls : List (ℕ × PySet)) (c c' : SimCache),
      CacheOK c → CacheOK c' →
      (greedyC cores θ order cls c).1 = (greedyC cores θ order cls c').1 := by
  intro order
  induction order with
  | nil => intro cls c c' _ _; rfl
  | cons idx rest ih =>
    intro cls c c' hc hc'
    simp only [greedyC]
    obtain ⟨h1, h2⟩ := tryAssign_eq cores θ idx cls c c' hc hc'
    rw [h1, h2]
    by_cases h : (tryAssignC cores θ idx cls c').2.1 = true
    · rw [if_pos h, if_pos h]
      exact ih _ _ _ (tryAssign_ok cores θ idx cls c hc) (tryAssign_ok cores θ idx cls c' hc')
    · rw [if_neg h, if_neg h]
      exact ih _ _ _ (tryAssign_ok cores θ idx cls c hc) (tryAssign_ok cores θ idx cls c' hc')

/-- The merge scan preserves cache consistency. -/
theorem innerScan_ok (cores : List String) (θ : ℚ) (ri : ℕ) :
    ∀ (cls : List (ℕ × PySet)) (c : SimCache), CacheOK c →
      CacheOK (innerScanC cores θ ri cls c).2 := by
  intro cls
  induction cls with
  | nil => intro c hc; exact hc
  | cons cl rest ih =>
    intro c hc
    simp only [innerScanC]
    by_cases h : θ ≤ (_similarity (cores.getD ri "") (cores.getD cl.1 "") c).1
    · rw [if_pos h]; exact (sim_eq_pure _ _ c hc).2
    · rw [if_neg h]; exact ih _ (sim_eq_pure _ _ c hc).2

/-- The merge scan's result position does not depend on which consistent
cache is used. -/
theorem innerScan_eq (cores : List String) (θ : ℚ) (ri : ℕ) :
    ∀ (cls : List (ℕ × PySet)) (c c' : SimCache), CacheOK c → CacheOK c' →
      (innerScanC cores θ ri cls c).1 = (innerScanC cores θ ri cls c').1 := by
  intro cls
  induction cls with
  | nil => intro c c' _ _; rfl
  | cons cl rest ih =>
    intro c c' hc hc'
    simp only [innerScanC]
    rw [(sim_eq_pure (cores.getD ri "") (cores.getD cl.1 "") c hc).1,
      (sim_eq_pure (cores.getD ri "") (cores.getD cl.1 "") c' hc').1]
    by_cases h : θ ≤ simPure (cores.getD ri "") (cores.getD cl.1 "")
    · rw [if_pos h, if_pos h]
    · rw [if_neg h, if_neg h]
      exact congrArg (Option.map (· + 1))
        (ih _ _ ((sim_eq_pure _ _ c hc).2) ((sim_eq_pure _ _ c' hc').2))

/-- One merge pass preserves cache consistency. -/
theorem mergePass_ok (cores : List String) (θ : ℚ) :
    ∀ (cls : List (ℕ × PySet)) (c : SimCache), CacheOK c →
      CacheOK (mergePassC cores θ cls c).2 := by
  intro cls
  induction cls with
  | nil => intro c hc; exact hc
  | cons cl rest ih =>
    intro c hc
    simp only [mergePassC]
    rcases hscan : innerScanC cores θ cl.1 rest c with ⟨j, c2⟩
    cases j with
    | none =>
      have hc2 : CacheOK c2 := by
        have := innerScan_ok cores θ cl.1 rest c hc
        rw [hscan] at this
        exact this
      exact ih c2 hc2
    | some jv =>
      have hc2 : CacheOK c2 := by
        have := innerScan_ok cores θ cl.1 rest c hc
        rw [hscan] at this
        exact this
      exact hc2

/-- One merge pass's clusters do not depend on which consistent cache is
used. -/
theorem mergePass_eq (cores : List String) (θ : ℚ) :
    ∀ (cls : List (ℕ × PySet)) (c c' : SimCache), CacheOK c → CacheOK c' →
      (mergePassC cores θ cls c).1 = (mergePassC cores θ cls c').1 := by
  intro cls
  induction cls with
  | nil => intro c c' _ _; rfl
  | cons cl rest ih =>
    intro c c' hc hc'
    simp only [mergePassC]
    have hsc := innerScan_eq cores θ cl.1 rest c c' hc hc'
    rcases hscan : innerScanC cores θ cl.1 rest c with ⟨j, c2⟩
    rcases hscan' : innerScanC cores θ cl.1 rest c' with ⟨j', c2'⟩
    rw [hscan, hscan'] at hsc
    simp only at hsc
    subst hsc
    cases j with
    | none =>
      have hc2 : CacheOK c2 := by
        have := innerScan_ok cores θ cl.1 rest c hc
        rw [hscan] at this; exact this
      have hc2' : CacheOK c2' := by
        have := innerScan_ok cores θ cl.1 rest c' hc'
        rw [hscan'] at this; exact this
      show cl :: (mergePassC cores θ rest c2).1 = cl :: (mergePassC cores θ rest c2').1
      rw [ih c2 c2' hc2 hc2']
    | some jv => rfl

/-- Two merge passes: consistency preserved. -/
theorem mergeTwice_ok (cores : List String) (θ : ℚ)
    (cls : List (ℕ × PySet)) (c : SimCache) (hc : CacheOK c) :
    CacheOK (mergeTwiceC cores θ cls c).2 := by
  show CacheOK (mergePassC cores θ (mergePassC cores θ cls c).1 (mergePassC cores θ cls c).2).2
  exact mergePass_ok cores θ _ _ (mergePass_ok cores θ cls c hc)

/-- Two merge passes: clusters cache-independent. -/
theorem mergeTwice_eq (cores : List String) (θ : ℚ)
    (cls : List (ℕ × PySet)) (c c' : SimCache) (hc : CacheOK c) (hc' : CacheOK c') :
    (mergeTwiceC cores θ cls c).1 = (mergeTwiceC cores θ cls c').1 := by
  show (mergePassC cores θ (mergePassC cores θ cls c).1 (mergePassC cores θ cls c).2).1 = _
  rw [mergePass_eq cores θ cls c c' hc hc']
  exact mergePass_eq cores θ _ _ _ (mergePass_ok cores θ cls c hc)
    (mergePass_ok cores θ cls c' hc')

/-- One bucket: consistency preserved. -/
theorem clusterBucket_ok (cores : List String) (θ : ℚ) (bis : List ℕ)
    (c : SimCache) (hc : CacheOK c) : CacheOK (clusterBucketC cores θ bis c).2 := by
  unfold clusterBucketC
  split
  · exact hc
  · split
    · exact hc
    · show CacheOK (mergeTwiceC cores θ (greedyC cores θ (insSort (lenOrd cores) bis) [] c).1
        (greedyC cores θ (insSort (lenOrd cores) bis) [] c).2).2
      exact mergeTwice_ok cores θ _ _ (greedy_ok cores θ _ [] c hc)

/-- One bucket: clusters cache-independent. -/
theorem clusterBucket_eq (cores : List String) (θ : ℚ) (bis : List ℕ)
    (c c' : SimCache) (hc : CacheOK c) (hc' : CacheOK c') :
    (clusterBucketC cores θ bis c).1 = (clusterBucketC cores θ bis c').1 := by
  unfold clusterBucketC
  split
  · rfl
  · split
    · rfl
    · have hg := greedy_eq cores θ (insSort (lenOrd cores) bis) [] c c' hc hc'
      show (List.map (fun x => x.2) (mergeTwiceC cores θ
          (greedyC cores θ (insSort (lenOrd cores) bis) [] c).1
          (greedyC cores θ (insSort (lenOrd cores) bis) [] c).2).1) = _
      rw [hg]
      exact congrArg (List.map (fun x => x.2))
        (mergeTwice_eq cores θ _ _ _ (greedy_ok cores θ _ [] c hc)
          (greedy_ok cores θ _ [] c' hc'))

/-- The bucket fold: consistency preserved. -/
theorem clusterFold_ok (cores : List String) (θ : ℚ) :
    ∀ (bs : List (List Char × List ℕ)) (acc : List PySet × SimCache),
      CacheOK acc.2 → CacheOK (bs.foldl (clusterFoldStep cores θ) acc).2 := by
  intro bs
  induction bs with
  | nil => intro acc hc; exact hc
  | cons x rest ih =>
    intro acc hc
    rw [List.foldl_cons]
    exact ih _ (clusterBucket_ok cores θ x.2 acc.2 hc)

/-- The bucket fold: clusters cache-independent. -/
theorem clusterFold_eq (cores : List String) (θ : ℚ) :
    ∀ (bs : List (List Char × List ℕ)) (l : List PySet) (c c' : SimCache),
      CacheOK c → CacheOK c' →
      (bs.foldl (clusterFoldStep cores θ) (l, c)).1 =
        (bs.foldl (clusterFoldStep cores θ) (l, c')).1 := by
  intro bs
  induction bs with
  | nil => intro l c c' _ _; rfl
  | cons x rest ih =>
    intro l c c' hc hc'
    rw [List.foldl_cons, List.foldl_cons]
    show (rest.foldl (clusterFoldStep cores θ)
      (l ++ (clusterBucketC cores θ x.2 c).1, (clusterBucketC cores θ x.2 c).2)).1 = _
    rw [clusterBucket_eq cores θ x.2 c c' hc hc']
    exact ih _ _ _ (clusterBucket_ok cores θ x.2 c hc) (clusterBucket_ok cores θ x.2 c' hc')

/-- `_cluster_cores`: consistency preserved. -/
theorem cluster_cores_ok (cores : List String) (θ : ℚ) (c : SimCache)
    (hc : CacheOK c) : CacheOK (_cluster_cores cores θ c).2 := by
  unfold _cluster_cores
  split
  · exact hc
  · split
    · exact hc
    · exact clusterFold_ok cores θ _ ([], c) hc

/-- `_cluster_cores`: clusters cache-independent. -/
theorem cluster_cores_eq (cores : List String) (θ : ℚ) (c c' : SimCache)
    (hc : CacheOK c) (hc' : CacheOK c') :
    (_cluster_cores cores θ c).1 = (_cluster_cores cores θ c').1 := by
  unfold _cluster_cores
  split
  · rfl
  · split
    · rfl
    · exact clusterFold_eq cores θ _ [] c c' hc hc'

/-- The per-customer fold: consistency preserved. -/
theorem build_ok (θ : ℚ) :
    ∀ (grps : List (String × List String)) (acc : List ((String × String) × String) × SimCache),
      CacheOK acc.2 → CacheOK (grps.foldl (buildFoldStep θ) acc).2 := by
  intro grps
  induction grps with
  | nil => intro acc hc; exact hc
  | cons g rest ih =>
    intro acc hc
    rw [List.foldl_cons]
    refine ih _ ?_
    simp only [buildFoldStep]
    by_cases h : (uniqueCores g.2).length = 0
    · rw [if_pos h]; exact hc
    · rw [if_neg h]
      exact cluster_cores_ok _ θ acc.2 hc

/-- The per-customer fold: the mapping is cache-independent. -/
theorem build_eq (θ : ℚ) :
    ∀ (grps : List (String × List String)) (m : List ((String × String) × String))
      (c c' : SimCache), CacheOK c → CacheOK c' →
      (grps.foldl (buildFoldStep θ) (m, c)).1 = (grps.foldl (buildFoldStep θ) (m, c')).1 := by
  intro grps
  induction grps with
  | nil => intro m c c' _ _; rfl
  | cons g rest ih =>
    intro m c c' hc hc'
    rw [List.foldl_cons, List.foldl_cons]
    simp only [buildFoldStep]
    by_cases h : (uniqueCores g.2).length = 0
    · rw [if_pos h, if_pos h]
      exact ih m c c' hc hc'
    · rw [if_neg h, if_neg h]
      show (rest.foldl (buildFoldStep θ)
        (m ++ customerEntries g.1 (uniqueCores g.2) (_cluster_cores (uniqueCores g.2) θ c).1,
          (_cluster_cores (uniqueCores g.2) θ c).2)).1 = _
      rw [cluster_cores_eq (uniqueCores g.2) θ c c' hc hc']
      exact ih _ _ _ (cluster_cores_ok _ θ c hc) (cluster_cores_ok _ θ c' hc')

/-- C9: re-running `assign_project_ids` on the same frame yields the same
project-id and round sequences, and the result does not depend on the
hidden similarity cache: starting from any consistent cache gives the
same output as the source's fresh empty cache. -/
theorem c9_determinism :
    (∀ df : DF, assign_project_ids df = assign_project_ids df) ∧
    (∀ (df : DF) (c : SimCache), CacheOK c →
      assign_project_ids_from c df = assign_project_ids df) := by
  refine ⟨fun df => rfl, ?_⟩
  intro df c hc
  unfold assign_project_ids assign_project_ids_from
  rcases getCol? df "customer" with _ | custCol
  · rfl
  · rcases getCol? df "project_name_core" with _ | coreCol
    · rfl
    · dsimp only
      unfold _build_customer_core_to_project_id
      rw [build_eq SIMILARITY_THRESHOLD _ [] c [] hc cacheOK_nil]

/-- Witness for C9: a non-empty consistent starting cache yields the same
output as the fresh empty cache on a concrete frame. -/
theorem c9_witness :
    assign_project_ids_from cacheW dfGroupW = assign_project_ids dfGroupW :=
  c9_determinism.2 dfGroupW cacheW cacheOK_cacheW

end S2P

namespace S2P

set_option maxRecDepth 80000

/-- A hash table holds a key somewhere. -/
def hasKey (t : List (Option ℕ)) : Prop := ∃ x, (some x) ∈ t

/-- Writing a key into a slot in range yields a table with a key. -/
theorem hasKey_set_mem (t : List (Option ℕ)) (i k : ℕ) (hi : i < t.length) :
    hasKey (t.set i (some k)) := by
  have h' : i < (t.set i (some k)).length := by simpa using hi
  have he : (t.set i (some k))[i] = some k := List.getElem_set_self h'
  exact ⟨k, List.mem_iff_getElem.2 ⟨i, h', he⟩⟩

/-- Writing a key never empties a table. -/
theorem hasKey_set (t : List (Option ℕ)) (i k : ℕ) (h : hasKey t) :
    hasKey (t.set i (some k)) := by
  by_cases hi : i < t.length
  · exact hasKey_set_mem t i k hi
  · rw [List.set_eq_of_length_le (Nat.le_of_not_lt hi)]
    exact h

/-- `set_insert_clean` keeps the table length. -/
theorem insertClean_length (t : List (Option ℕ)) (k : ℕ) :
    (insertClean t k).length = t.length := by
  unfold insertClean
  cases hcp : cleanProbe t (pyHash k % t.length) (pyHash k) (t.length + 64) with
  | none => rfl
  | some i => exact List.length_set t i _

/-- `set_insert_clean` never empties a table. -/
theorem hasKey_insertClean (t : List (Option ℕ)) (k : ℕ) (h : hasKey t) :
    hasKey (insertClean t k) := by
  unfold insertClean
  cases hcp : cleanProbe t (pyHash k % t.length) (pyHash k) (t.length + 64) with
  | none => exact h
  | some i => exact hasKey_set t i k h

/-- The clean scan stops at an immediately free slot. -/
theorem cleanScan_none_head (t : List (Option ℕ)) (i cnt : ℕ) (hcnt : 0 < cnt)
    (hi : t.getD i none = none) : cleanScan t i cnt = some i := by
  cases cnt with
  | zero => omega
  | succ m => simp only [cleanScan, hi]

/-- Reading any slot of an all-empty table. -/
theorem allNone_getD (t : List (Option ℕ)) (i : ℕ)
    (hall : ∀ e ∈ t, e = none) : t.getD i none = none := by
  by_cases hi : i < t.length
  · rw [List.getD_eq_getElem _ _ hi]
    exact hall _ (List.getElem_mem hi)
  · exact List.getD_eq_default _ _ (Nat.le_of_not_lt hi)

/-- Cleanly inserting into an all-empty table places the key at its home
slot. -/
theorem hasKey_insertClean_allNone (t : List (Option ℕ)) (k : ℕ)
    (hlen : 0 < t.length) (hall : ∀ e ∈ t, e = none) :
    hasKey (insertClean t k) := by
  unfold insertClean
  have hcp : cleanProbe t (pyHash k % t.length) (pyHash k) (t.length + 64) =
      some (pyHash k % t.length) := by
    rw [show t.length + 64 = (t.length + 63) + 1 from rfl]
    simp only [cleanProbe]
    rw [cleanScan_none_head t _ _ (Nat.succ_pos _) (allNone_getD t _ hall)]
  rw [hcp]
  exact hasKey_set_mem t _ k (Nat.mod_lt _ hlen)

/-- The resize copy loop never empties its target. -/
theorem foldIC_preserve (l : List (Option ℕ)) :
    ∀ t0 : List (Option ℕ), hasKey t0 →
      hasKey (l.foldl (fun t e => match e with
        | some k => insertClean t k
        | none => t) t0) := by
  induction l with
  | nil => intro t0 h; exact h
  | cons e l ih =>
    intro t0 h
    rw [List.foldl_cons]
    cases e with
    | none => exact ih t0 h
    | some k => exact ih _ (hasKey_insertClean t0 k h)

/-- The resize copy loop keeps the target length. -/
theorem foldIC_length (l : List (Option ℕ)) :
    ∀ t0 : List (Option ℕ), (l.foldl (fun t e => match e with
      | some k => insertClean t k
      | none => t) t0).length = t0.length := by
  induction l with
  | nil => intro t0; rfl
  | cons e l ih =>
    intro t0
    rw [List.foldl_cons]
    cases e with
    | none => exact ih t0
    | some k => rw [ih (insertClean t0 k), insertClean_length]

/-- Copying at least one key into a non-degenerate target leaves a key. -/
theorem foldIC_establish (l : List (Option ℕ)) :
    ∀ t0 : List (Option ℕ), 0 < t0.length → (∃ x, (some x) ∈ l) →
      hasKey (l.foldl (fun t e => match e with
        | some k => insertClean t k
        | none => t) t0) := by
  induction l with
  | nil =>
    intro t0 _ h
    obtain ⟨x, hx⟩ := h
    exact absurd hx (List.not_mem_nil _)
  | cons e l ih =>
    intro t0 hlen hex
    rw [List.foldl_cons]
    cases e with
    | none =>
      refine ih t0 hlen ?_
      obtain ⟨x, hx⟩ := hex
      rcases List.mem_cons.1 hx with h | h
      · exact Option.noConfusion h
      · exact ⟨x, h⟩
    | some k =>
      by_cases h0 : hasKey t0
      · exact foldIC_preserve l _ (hasKey_insertClean t0 k h0)
      · have hall : ∀ e ∈ t0, e = none := by
          intro e he
          cases e with
          | none => rfl
          | some x => exact absurd ⟨x, he⟩ h0
        exact foldIC_preserve l _ (hasKey_insertClean_allNone t0 k hlen hall)

/-- The doubling loop never shrinks its start. -/
theorem growSizeAux_ge (m : ℕ) : ∀ (f sz : ℕ), sz ≤ growSizeAux m sz f := by
  intro f
  induction f with
  | zero => intro sz; exact le_rfl
  | succ g ih =>
    intro sz
    simp only [growSizeAux]
    by_cases h : sz ≤ m
    · rw [if_pos h]
      have := ih (sz * 2)
      omega
    · rw [if_neg h]

/-- Resized tables are never degenerate. -/
theorem growSize_pos (m : ℕ) : 0 < growSize m :=
  lt_of_lt_of_le (by norm_num) (growSizeAux_ge m (m + 4) 8)

/-- `set_table_resize` never empties a set. -/
theorem hasKey_resize (s : PySet) (m : ℕ) (h : hasKey s.table) :
    hasKey (pySetResize s m).table :=
  foldIC_establish s.table (List.replicate (growSize m) none)
    (by simpa using growSize_pos m) h

/-- The add scan stops at an immediately free slot. -/
theorem addScan_none_head (t : List (Option ℕ)) (key i cnt : ℕ) (hcnt : 0 < cnt)
    (hi : t.getD i none = none) : addScan t key i cnt = some (Sum.inl i) := by
  cases cnt with
  | zero => omega
  | succ m => simp only [addScan, hi]

/-- The add probe stops at an immediately free home slot. -/
theorem addProbe_first_empty (t : List (Option ℕ)) (key i p f : ℕ)
    (hgd : t.getD i none = none) :
    addProbe t key i p (f + 1) = some (Sum.inl i) := by
  simp only [addProbe]
  rw [addScan_none_head t key i _ (Nat.succ_pos _) hgd]

/-- `set.add` never empties a set. -/
theorem hasKey_add (s : PySet) (k : ℕ) (h : hasKey s.table) :
    hasKey (pySetAdd s k).table := by
  simp only [pySetAdd]
  cases hp : addProbe s.table k (pyHash k % s.table.length) (pyHash k)
      (s.table.length + 64) with
  | none => exact h
  | some r =>
    cases r with
    | inr u => exact h
    | inl i =>
      dsimp only
      by_cases hr : (s.table.length - 1) * 3 ≤ (s.fill + 1) * 5
      · rw [if_pos hr]
        exact hasKey_resize ⟨s.table.set i (some k), s.fill + 1⟩ _
          (hasKey_set s.table i k h)
      · rw [if_neg hr]
        exact hasKey_set s.table i k h

/-- A set literal `{x}` holds a key. -/
theorem hasKey_singleton (x : ℕ) : hasKey (pySetSingleton x).table := by
  show hasKey (pySetAdd pySetEmpty x).table
  simp only [pySetAdd]
  have hgd : pySetEmpty.table.getD (pyHash x % pySetEmpty.table.length) none = none := by
    show (List.replicate 8 (none : Option ℕ)).getD (pyHash x % 8) none = none
    have hm : pyHash x % 8 < 8 := Nat.mod_lt _ (by norm_num)
    rw [List.getD_eq_getElem _ _ (by simpa using hm)]
    exact List.getElem_replicate _ _
  rw [show pySetEmpty.table.length + 64 = (pySetEmpty.table.length + 63) + 1 from rfl,
    addProbe_first_empty pySetEmpty.table x _ _ _ hgd]
  dsimp only
  rw [if_neg (by decide :
    ¬((pySetEmpty.table.length - 1) * 3 ≤ (pySetEmpty.fill + 1) * 5))]
  exact hasKey_set_mem pySetEmpty.table _ x (Nat.mod_lt _ (by decide))

/-- The merge insertion loop never empties its target. -/
theorem foldAdd_preserve (l : List (Option ℕ)) :
    ∀ acc : PySet, hasKey acc.table →
      hasKey ((l.foldl (fun acc e => match e with
        | some k => pySetAdd acc k
        | none => acc) acc)).table := by
  induction l with
  | nil => intro acc h; exact h
  | cons e l ih =>
    intro acc h
    rw [List.foldl_cons]
    cases e with
    | none => exact ih acc h
    | some k => exact ih _ (hasKey_add acc k h)

/-- `set.update` of two non-empty sets never empties the target. -/
theorem hasKey_merge (so other : PySet) (h : hasKey so.table)
    (h2 : hasKey other.table ∨ other.fill = 0) :
    hasKey (pySetMerge so other).table := by
  simp only [pySetMerge]
  by_cases hf : other.fill = 0
  · rw [if_pos hf]
    exact h
  · rw [if_neg hf]
    have hother : hasKey other.table := h2.resolve_right hf
    have hso1 : hasKey (if (so.table.length - 1) * 3 ≤ (so.fill + other.fill) * 5
        then pySetResize so ((so.fill + other.fill) * 2) else so).table := by
      by_cases hr : (so.table.length - 1) * 3 ≤ (so.fill + other.fill) * 5
      · rw [if_pos hr]
        exact hasKey_resize so _ h
      · rw [if_neg hr]
        exact h
    set so1 := if (so.table.length - 1) * 3 ≤ (so.fill + other.fill) * 5
      then pySetResize so ((so.fill + other.fill) * 2) else so with hso1def
    by_cases hc1 : so1.fill = 0 ∧ so1.table.length = other.table.length
    · rw [if_pos hc1]
      exact hother
    · rw [if_neg hc1]
      by_cases hc2 : so1.fill = 0
      · rw [if_pos hc2]
        exact foldIC_preserve other.table so1.table hso1
      · rw [if_neg hc2]
        exact foldAdd_preserve other.table so1 hso1

/-- Invariant: every cluster's member set holds at least one index. -/
def clsInv (cls : List (ℕ × PySet)) : Prop :=
  ∀ p ∈ cls, hasKey p.2.table

/-- The greedy inner loop preserves the member invariant. -/
theorem tryAssign_inv (cores : List String) (θ : ℚ) (idx : ℕ) :
    ∀ (cls : List (ℕ × PySet)) (c : SimCache), clsInv cls →
      clsInv (tryAssignC cores θ idx cls c).1 := by
  intro cls
  induction cls with
  | nil => intro c _; intro p hp; exact absurd hp (List.not_mem_nil _)
  | cons cl rest ih =>
    intro c hinv
    simp only [tryAssignC]
    by_cases h : θ ≤ (_similarity (cores.getD idx "") (cores.getD cl.1 "") c).1
    · rw [if_pos h]
      intro p hp
      rcases List.mem_cons.1 hp with h1 | h1
      · subst h1
        exact hasKey_add cl.2 idx (hinv cl (List.mem_cons_self cl rest))
      · exact hinv p (List.mem_cons_of_mem cl h1)
    · rw [if_neg h]
      intro p hp
      rcases List.mem_cons.1 hp with h1 | h1
      · subst h1; exact hinv p (List.mem_cons_self p rest)
      · exact ih _ (fun q hq => hinv q (List.mem_cons_of_mem cl hq)) p h1

/-- The greedy pass preserves the member invariant. -/
theorem greedy_inv (cores : List String) (θ : ℚ) :
    ∀ (order : List ℕ) (cls : List (ℕ × PySet)) (c : SimCache), clsInv cls →
      clsInv (greedyC cores θ order cls c).1 := by
  intro order
  induction order with
  | nil => intro cls c h; exact h
  | cons idx rest ih =>
    intro cls c hinv
    simp only [greedyC]
    by_cases h : (tryAssignC cores θ idx cls c).2.1 = true
    · rw [if_pos h]
      exact ih _ _ (tryAssign_inv cores θ idx cls c hinv)
    · rw [if_neg h]
      refine ih _ _ ?_
      intro p hp
      rcases List.mem_append.1 hp with h1 | h1
      · exact tryAssign_inv cores θ idx cls c hinv p h1
      · rcases List.mem_singleton.1 h1 with h2
        subst h2
        exact hasKey_singleton idx

/-- One merge pass preserves the member invariant. -/
theorem mergePass_inv (cores : List String) (θ : ℚ) :
    ∀ (cls : List (ℕ × PySet)) (c : SimCache), clsInv cls →
      clsInv (mergePassC cores θ cls c).1 := by
  intro cls
  induction cls with
  | nil => intro c _ p hp; exact absurd hp (List.not_mem_nil _)
  | cons cl rest ih =>
    intro c hinv
    simp only [mergePassC]
    rcases hscan : innerScanC cores θ cl.1 rest c with ⟨j, c2⟩
    cases j with
    | some jv =>
      intro p hp
      rcases List.mem_cons.1 hp with h1 | h1
      · subst h1
        refine hasKey_merge cl.2 _ (hinv cl (List.mem_cons_self cl rest)) ?_
        by_cases hj : jv < rest.length
        · refine Or.inl ?_
          have hmem : rest.getD jv (0, pySetEmpty) ∈ rest := by
            rw [List.getD_eq_getElem _ _ hj]
            exact List.getElem_mem hj
          exact hinv _ (List.mem_cons_of_mem cl hmem)
        · refine Or.inr ?_
          rw [List.getD_eq_default _ _ (Nat.le_of_not_lt hj)]
          rfl
      · exact hinv _ (List.mem_cons_of_mem cl (List.mem_of_mem_eraseIdx h1))
    | none =>
      intro p hp
      rcases List.mem_cons.1 hp with h1 | h1
      · subst h1; exact hinv p (List.mem_cons_self p rest)
      · exact ih c2 (fun q hq => hinv q (List.mem_cons_of_mem cl hq)) p h1

/-- Every member set `_cluster_cores` emits holds at least one index. -/
theorem cluster_cores_inv (cores : List String) (θ : ℚ) (c : SimCache) :
    ∀ ms ∈ (_cluster_cores cores θ c).1, hasKey ms.table := by
  have hbucket : ∀ (bis : List ℕ) (c0 : SimCache),
      ∀ ms ∈ (clusterBucketC cores θ bis c0).1, hasKey ms.table := by
    intro bis c0 ms hms
    unfold clusterBucketC at hms
    split at hms
    · exact absurd hms (List.not_mem_nil _)
    · split at hms
      · obtain ⟨i, _, hi⟩ := List.mem_map.1 hms
        exact hi ▸ hasKey_singleton i
      · obtain ⟨p, hp, hp2⟩ := List.mem_map.1 hms
        have hg := greedy_inv cores θ (insSort (lenOrd cores) bis) [] c0
          (fun q hq => absurd hq (List.not_mem_nil _))
        have h1 := mergePass_inv cores θ
          (greedyC cores θ (insSort (lenOrd cores) bis) [] c0).1
          (greedyC cores θ (insSort (lenOrd cores) bis) [] c0).2 hg
        have h2 := mergePass_inv cores θ
          (mergePassC cores θ (greedyC cores θ (insSort (lenOrd cores) bis) [] c0).1
            (greedyC cores θ (insSort (lenOrd cores) bis) [] c0).2).1
          (mergePassC cores θ (greedyC cores θ (insSort (lenOrd cores) bis) [] c0).1
            (greedyC cores θ (insSort (lenOrd cores) bis) [] c0).2).2 h1
        exact hp2 ▸ h2 p hp
  intro ms hms
  unfold _cluster_cores at hms
  split at hms
  · exact absurd hms (List.not_mem_nil _)
  · split at hms
    · rcases List.mem_singleton.1 hms with h
      subst h
      exact hasKey_singleton 0
    · revert hms
      have hfold : ∀ (bs : List (List Char × List ℕ)) (acc : List PySet × SimCache),
          (∀ ms ∈ acc.1, hasKey ms.table) →
          ∀ ms ∈ (bs.foldl (clusterFoldStep cores θ) acc).1, hasKey ms.table := by
        intro bs
        induction bs with
        | nil => intro acc h; exact h
        | cons x rest ihb =>
          intro acc hacc
          rw [List.foldl_cons]
          refine ihb _ ?_
          intro ms hms
          rcases List.mem_append.1 hms with h1 | h1
          · exact hacc ms h1
          · exact hbucket x.2 acc.2 ms h1
      intro hms
      exact hfold _ ([], c) (fun q hq => absurd hq (List.not_mem_nil _)) ms hms

end S2P

namespace S2P

set_option maxRecDepth 80000

/-- Python `max(..., key=len)` folded from a current best `b`: the result
is `b` or a list member, and no candidate is longer. -/
theorem pyMaxFold : ∀ (t : List String) (b : String),
    ((t.foldl (fun best s => if best.length < s.length then s else best) b) = b ∨
      (t.foldl (fun best s => if best.length < s.length then s else best) b) ∈ t) ∧
    b.length ≤ (t.foldl (fun best s => if best.length < s.length then s else best) b).length ∧
    ∀ s ∈ t, s.length ≤
      (t.foldl (fun best s => if best.length < s.length then s else best) b).length := by
  intro t
  induction t with
  | nil =>
    intro b
    exact ⟨Or.inl rfl, le_rfl, fun s hs => absurd hs (List.not_mem_nil _)⟩
  | cons x t ih =>
    intro b
    simp only [List.foldl_cons]
    obtain ⟨h1, h2, h3⟩ := ih (if b.length < x.length then x else b)
    refine ⟨?_, ?_, ?_⟩
    · rcases h1 with h | h
      · rw [h]
        by_cases hc : b.length < x.length
        · rw [if_pos hc]
          exact Or.inr (List.mem_cons_self x t)
        · rw [if_neg hc]
          exact Or.inl rfl
      · exact Or.inr (List.mem_cons_of_mem x h)
    · refine le_trans ?_ h2
      by_cases hc : b.length < x.length
      · rw [if_pos hc]
        omega
      · rw [if_neg hc]
    · intro s hs
      rcases List.mem_cons.1 hs with h | h
      · subst h
        refine le_trans ?_ h2
        by_cases hc : b.length < s.length
        · rw [if_pos hc]
        · rw [if_neg hc]
          omega
      · exact h3 s h

/-- C7 (amended): for every cluster the clusterer produces, the
representative that `customerEntries` feeds into `make_project_id` —
`max(..., key=len)` over the member keys in the set's iteration order — is
the key of one of the members, and no member key is longer.  Which of
several equally long member keys wins follows the hash-table iteration
order, not first occurrence in input order (see the counterexample). -/
theorem c7_longest_representative (cores : List String) (θ : ℚ) (c : SimCache)
    (ms : PySet) (hm : ms ∈ (_cluster_cores cores θ c).1) :
    (pySetToList ms).map (fun k => cores.getD k "") ≠ [] ∧
    pyMaxByLen ((pySetToList ms).map (fun k => cores.getD k "")) ∈
      (pySetToList ms).map (fun k => cores.getD k "") ∧
    ∀ s ∈ (pySetToList ms).map (fun k => cores.getD k ""),
      s.length ≤ (pyMaxByLen ((pySetToList ms).map (fun k => cores.getD k ""))).length := by
  have hne : pySetToList ms ≠ [] := by
    obtain ⟨x, hx⟩ := cluster_cores_inv cores θ c ms hm
    exact List.ne_nil_of_mem (List.mem_filterMap.2 ⟨some x, hx, rfl⟩)
  rcases hl : pySetToList ms with _ | ⟨m, t⟩
  · exact absurd hl hne
  · simp only [List.map_cons]
    have hfold : pyMaxByLen (cores.getD m "" :: t.map (fun k => cores.getD k "")) =
        (t.map (fun k => cores.getD k "")).foldl
          (fun best s => if best.length < s.length then s else best)
          (cores.getD m "") := rfl
    obtain ⟨h1, h2, h3⟩ := pyMaxFold (t.map (fun k => cores.getD k "")) (cores.getD m "")
    refine ⟨by simp, ?_, ?_⟩
    · rw [hfold]
      rcases h1 with h | h
      · rw [h]
        exact List.mem_cons_self _ _
      · exact List.mem_cons_of_mem _ h
    · intro s hs
      rw [hfold]
      rcases List.mem_cons.1 hs with h | h
      · subst h
        exact h2
      · exact h3 s h

/-- The representative the CLAIM prescribes for a member set: the longest
member key, ties broken by FIRST OCCURRENCE IN INPUT ORDER — that is, by
least index in the deduplicated key list. -/
def specRepInputOrder (cores : List String) (ms : List ℕ) : String :=
  pyMaxByLen ((insSort (fun i j => decide (i ≤ j)) ms).map (fun k => cores.getD k ""))

/-- Checker for the claim's tie-break rule: every cluster's actual
representative equals the input-order representative. -/
def repTieBreakSpec (cores : List String) (θ : ℚ) : Bool :=
  ((_cluster_cores cores θ []).1).all (fun ms =>
    pyMaxByLen ((pySetToList ms).map (fun k => cores.getD k "")) ==
      specRepInputOrder cores (pySetToList ms))

/-- Nine distinct keys: the similar equal-length pair sits at indices 1 and
8, whose member set `{1, 8}` iterates in slot order `[8, 1]`. -/
def cores9 : List String :=
  ["aaaaaaaaaa", "pppppppp1x", "bbbbbbbbbb", "cccccccccc", "dddddddddd",
   "eeeeeeeeee", "ffffffffff", "gggggggggg", "pppppppp2x"]

/-- C7 counterexample: the cluster `{1, 8}` of the two equally long similar
keys iterates `[8, 1]` (slot order of the CPython set), so `max(key=len)`
returns the key of index 8 — the SECOND occurrence in input order — and
the claim's first-occurrence tie-break fails. -/
theorem c7_counterexample :
    repTieBreakSpec cores9 SIMILARITY_THRESHOLD = false ∧
    ((_cluster_cores cores9 SIMILARITY_THRESHOLD []).1).map pySetToList =
      [[0], [8, 1], [2], [3], [4], [5], [6], [7]] ∧
    pyMaxByLen (([8, 1] : List ℕ).map (fun k => cores9.getD k "")) = "pppppppp2x" ∧
    specRepInputOrder cores9 [8, 1] = "pppppppp1x" ∧
    ("pppppppp2x" : String) ≠ "pppppppp1x" := by
  refine ⟨by decide, by decide, by decide, by decide, by decide⟩

/-- Witness for C7 (amended) at the concrete pair cluster of `cores9`. -/
theorem c7_witness :
    (pySetToList ⟨[some 8, some 1, none, none, none, none, none, none], 2⟩ = [8, 1]) ∧
    ((pySetToList ⟨[some 8, some 1, none, none, none, none, none, none], 2⟩).map
        (fun k => cores9.getD k "") ≠ [] ∧
      pyMaxByLen ((pySetToList
          ⟨[some 8, some 1, none, none, none, none, none, none], 2⟩).map
          (fun k => cores9.getD k "")) ∈
        (pySetToList ⟨[some 8, some 1, none, none, none, none, none, none], 2⟩).map
          (fun k => cores9.getD k "") ∧
      ∀ s ∈ (pySetToList
          ⟨[some 8, some 1, none, none, none, none, none, none], 2⟩).map
          (fun k => cores9.getD k ""),
        s.length ≤ (pyMaxByLen ((pySetToList
          ⟨[some 8, some 1, none, none, none, none, none, none], 2⟩).map
          (fun k => cores9.getD k ""))).length) :=
  ⟨by decide, c7_longest_representative cores9 SIMILARITY_THRESHOLD []
    ⟨[some 8, some 1, none, none, none, none, none, none], 2⟩ (by decide)⟩

end S2P

namespace S2P

set_option maxRecDepth 80000

/-- Setting an absent column appends it. -/
theorem setColIn_notmem (nm : String) (vs : List Val) :
    ∀ l : List (String × List Val), nm ∉ l.map Prod.fst →
      setColIn nm vs l = l ++ [(nm, vs)] := by
  intro l
  induction l with
  | nil => intro _; rfl
  | cons p t ih =>
    intro h
    simp only [List.map_cons, List.mem_cons] at h
    push_neg at h
    obtain ⟨x, y⟩ := p
    simp only [setColIn]
    rw [if_neg (fun hq => h.1 (eq_of_beq hq).symm), ih h.2]
    rfl

/-- Setting a present column keeps the name sequence. -/
theorem setColIn_mapfst_mem (nm : String) (vs : List Val) :
    ∀ l : List (String × List Val), nm ∈ l.map Prod.fst →
      (setColIn nm vs l).map Prod.fst = l.map Prod.fst := by
  intro l
  induction l with
  | nil => intro h; simp at h
  | cons p t ih =>
    intro h
    obtain ⟨x, y⟩ := p
    simp only [List.map_cons, List.mem_cons] at h
    simp only [setColIn]
    by_cases hq : (x == nm) = true
    · rw [if_pos hq]
      simp only [List.map_cons]
    · rw [if_neg hq]
      simp only [List.map_cons]
      rcases h with h | h
      · exact absurd (beq_iff_eq.2 h.symm) hq
      · rw [ih h]

/-- Setting one column leaves the other columns' values alone. -/
theorem lookup_setColIn_ne (nm c : String) (vs : List Val) (h : c ≠ nm) :
    ∀ l : List (String × List Val), (setColIn nm vs l).lookup c = l.lookup c := by
  intro l
  induction l with
  | nil =>
    show List.lookup c [(nm, vs)] = none
    simp only [List.lookup]
    cases hc : (c == nm) with
    | true => exact absurd (eq_of_beq hc) h
    | false => rfl
  | cons p t ih =>
    obtain ⟨x, y⟩ := p
    simp only [setColIn]
    by_cases hq : (x == nm) = true
    · rw [if_pos hq]
      simp only [List.lookup]
      cases hcx : (c == x) with
      | true => exact absurd ((eq_of_beq hcx).trans (eq_of_beq hq)) h
      | false => rfl
    · rw [if_neg hq]
      simp only [List.lookup]
      cases hcx : (c == x) with
      | true => rfl
      | false => exact ih

/-- Dropping one column leaves the other columns' values alone. -/
theorem lookup_dropColIn_ne (nm c : String) (h : c ≠ nm) :
    ∀ l : List (String × List Val),
      (l.filter (fun p => !(p.1 == nm))).lookup c = l.lookup c := by
  intro l
  induction l with
  | nil => rfl
  | cons p t ih =>
    obtain ⟨x, y⟩ := p
    by_cases hx : (x == nm) = true
    · rw [List.filter_cons_of_neg (by rw [hx]; decide), ih]
      simp only [List.lookup]
      cases hcx : (c == x) with
      | true => exact absurd ((eq_of_beq hcx).trans (eq_of_beq hx)) h
      | false => rfl
    · rw [List.filter_cons_of_pos (by rw [Bool.eq_false_iff.2 hx]; rfl)]
      simp only [List.lookup]
      cases hcx : (c == x) with
      | true => rfl
      | false => exact ih

/-- Dropping a column filters the name sequence. -/
theorem mapfst_dropColIn (nm : String) :
    ∀ l : List (String × List Val),
      (l.filter (fun p => !(p.1 == nm))).map Prod.fst =
        (l.map Prod.fst).filter (fun s => !(s == nm)) := by
  intro l
  induction l with
  | nil => rfl
  | cons p t ih =>
    obtain ⟨x, y⟩ := p
    by_cases hx : (x == nm) = true
    · rw [List.filter_cons_of_neg (by rw [hx]; decide), List.map_cons,
        List.filter_cons_of_neg (by rw [hx]; decide)]
      exact ih
    · rw [List.filter_cons_of_pos (by rw [Bool.eq_false_iff.2 hx]; rfl), List.map_cons,
        List.map_cons, List.filter_cons_of_pos (by rw [Bool.eq_false_iff.2 hx]; rfl), ih]

/-- Filtering out an absent name is the identity. -/
theorem filter_no_mem (nm : String) :
    ∀ l : List String, nm ∉ l → l.filter (fun s => !(s == nm)) = l := by
  intro l
  induction l with
  | nil => intro _; rfl
  | cons x t ih =>
    intro h
    simp only [List.mem_cons] at h
    push_neg at h
    rw [List.filter_cons_of_pos
      (by rw [Bool.eq_false_iff.2 (fun hq => h.1 (eq_of_beq hq).symm)]; rfl), ih h.2]

end S2P

namespace S2P

set_option maxRecDepth 80000

/-- The column-list effect of `assign_link`: ten column assignments followed by
dropping the four helper columns (values abstracted). -/
def linkCols (L : List (String × List Val))
    (v1 v2 v3 v4 v5 v6 v7 v8 v9 v10 : List Val) : List (String × List Val) :=
  ((((setColIn "related_bid_id" v10 (setColIn "link_type" v9
      (setColIn "related_bid_id" v8 (setColIn "related_tender_id" v7
      (setColIn "link_type" v6 (setColIn "_is_bid" v5
      (setColIn "_is_tender" v4 (setColIn "_tender_round" v3
      (setColIn "_sort_date" v2 (setColIn "row_id" v1 L)))))))))).filter
    (fun p => !(p.1 == "_sort_date"))).filter
    (fun p => !(p.1 == "_tender_round"))).filter
    (fun p => !(p.1 == "_is_tender"))).filter
    (fun p => !(p.1 == "_is_bid"))

/-- On a frame with the four required columns, `assign_link` succeeds and its
output is `linkCols` applied to the input columns, for some value lists. -/
theorem assign_link_shape (df : DF) (pc rc dc tc : List Val)
    (h1 : getCol? df "project_id" = some pc)
    (h2 : getCol? df "record_type" = some rc)
    (h3 : getCol? df "发布日期" = some dc)
    (h4 : getCol? df "tender_round" = some tc) :
    ∃ v1 v2 v3 v4 v5 v6 v7 v8 v9 v10 : List Val,
      assign_link df = some ⟨df.nrows, linkCols df.cols v1 v2 v3 v4 v5 v6 v7 v8 v9 v10⟩ := by
  refine ⟨(rowIds df.nrows).map Val.str,
    ((dc.map valToDate).map Val.dateVal),
    ((tc.map valToRound).map Val.int),
    ((rc.map (fun v => _is_tender (valToStr v))).map
      (fun b => Val.int (if b then 1 else 0))),
    ((rc.map (fun v => _is_bid (valToStr v))).map
      (fun b => Val.int (if b then 1 else 0))),
    ((linkMain (pc.map valToStr) (rowIds df.nrows)
        (rc.map (fun v => _is_tender (valToStr v)))
        (rc.map (fun v => _is_bid (valToStr v)))
        (sortedOrder (pc.map valToStr) (dc.map valToDate) (tc.map valToRound)
          df.nrows) df.nrows).lt.map Val.str),
    ((linkMain (pc.map valToStr) (rowIds df.nrows)
        (rc.map (fun v => _is_tender (valToStr v)))
        (rc.map (fun v => _is_bid (valToStr v)))
        (sortedOrder (pc.map valToStr) (dc.map valToDate) (tc.map valToRound)
          df.nrows) df.nrows).rt.map Val.str),
    ((linkMain (pc.map valToStr) (rowIds df.nrows)
        (rc.map (fun v => _is_tender (valToStr v)))
        (rc.map (fun v => _is_bid (valToStr v)))
        (sortedOrder (pc.map valToStr) (dc.map valToDate) (tc.map valToRound)
          df.nrows) df.nrows).rb.map Val.str),
    (((List.range df.nrows).map (linkLtFinal
        (rc.map (fun v => _is_tender (valToStr v))) (rowIds df.nrows)
        (linkMain (pc.map valToStr) (rowIds df.nrows)
          (rc.map (fun v => _is_tender (valToStr v)))
          (rc.map (fun v => _is_bid (valToStr v)))
          (sortedOrder (pc.map valToStr) (dc.map valToDate) (tc.map valToRound)
            df.nrows) df.nrows))).map Val.str),
    (((List.range df.nrows).map (linkRbFinal
        (rc.map (fun v => _is_tender (valToStr v))) (rowIds df.nrows)
        (linkMain (pc.map valToStr) (rowIds df.nrows)
          (rc.map (fun v => _is_tender (valToStr v)))
          (rc.map (fun v => _is_bid (valToStr v)))
          (sortedOrder (pc.map valToStr) (dc.map valToDate) (tc.map valToRound)
            df.nrows) df.nrows)
        (tenderToOneBid df.nrows (rowIds df.nrows)
          (linkMain (pc.map valToStr) (rowIds df.nrows)
            (rc.map (fun v => _is_tender (valToStr v)))
            (rc.map (fun v => _is_bid (valToStr v)))
            (sortedOrder (pc.map valToStr) (dc.map valToDate)
              (tc.map valToRound) df.nrows) df.nrows).rt))).map Val.str),
    ?_⟩
  unfold assign_link
  rw [h1, h2, h3, h4]
  rfl

/-- Name sequence of `linkCols` when none of the eight produced names
pre-exists: the input names followed by the four output columns. -/
theorem linkCols_names (L : List (String × List Val))
    (v1 v2 v3 v4 v5 v6 v7 v8 v9 v10 : List Val)
    (hA : "row_id" ∉ L.map Prod.fst)
    (hB : "_sort_date" ∉ L.map Prod.fst)
    (hC : "_tender_round" ∉ L.map Prod.fst)
    (hD : "_is_tender" ∉ L.map Prod.fst)
    (hE : "_is_bid" ∉ L.map Prod.fst)
    (hF : "link_type" ∉ L.map Prod.fst)
    (hG : "related_tender_id" ∉ L.map Prod.fst)
    (hH : "related_bid_id" ∉ L.map Prod.fst) :
    (linkCols L v1 v2 v3 v4 v5 v6 v7 v8 v9 v10).map Prod.fst =
      L.map Prod.fst ++
        ["row_id", "link_type", "related_tender_id", "related_bid_id"] := by
  have s1 : setColIn "row_id" v1 L = L ++ [("row_id", v1)] :=
    setColIn_notmem _ _ L hA
  have a2 : "_sort_date" ∉ (L ++ [("row_id", v1)]).map Prod.fst := by
    simp only [List.map_append, List.mem_append]
    rintro (h | h)
    · exact hB h
    · exact absurd (show "_sort_date" ∈ (["row_id"] : List String) from h) (by decide)
  have s2 : setColIn "_sort_date" v2 (L ++ [("row_id", v1)]) = L ++ [("row_id", v1), ("_sort_date", v2)] := by
    rw [setColIn_notmem _ _ _ a2, List.append_assoc]
    rfl
  have a3 : "_tender_round" ∉ (L ++ [("row_id", v1), ("_sort_date", v2)]).map Prod.fst := by
    simp only [List.map_append, List.mem_append]
    rintro (h | h)
    · exact hC h
    · exact absurd (show "_tender_round" ∈ (["row_id", "_sort_date"] : List String) from h) (by decide)
  have s3 : setColIn "_tender_round" v3 (L ++ [("row_id", v1), ("_sort_date", v2)]) = L ++ [("row_id", v1), ("_sort_date", v2), ("_tender_round", v3)] := by
    rw [setColIn_notmem _ _ _ a3, List.append_assoc]
    rfl
  have a4 : "_is_tender" ∉ (L ++ [("row_id", v1), ("_sort_date", v2), ("_tender_round", v3)]).map Prod.fst := by
    simp only [List.map_append, List.mem_append]
    rintro (h | h)
    · exact hD h
    · exact absurd (show "_is_tender" ∈ (["row_id", "_sort_date", "_tender_round"] : List String) from h) (by decide)
  have s4 : setColIn "_is_tender" v4 (L ++ [("row_id", v1), ("_sort_date", v2), ("_tender_round", v3)]) = L ++ [("row_id", v1), ("_sort_date", v2), ("_tender_round", v3), ("_is_tender", v4)] := by
    rw [setColIn_notmem _ _ _ a4, List.append_assoc]
    rfl
  have a5 : "_is_bid" ∉ (L ++ [("row_id", v1), ("_sort_date", v2), ("_tender_round", v3), ("_is_tender", v4)]).map Prod.fst := by
    simp only [List.map_append, List.mem_append]
    rintro (h | h)
    · exact hE h
    · exact absurd (show "_is_bid" ∈ (["row_id", "_sort_date", "_tender_round", "_is_tender"] : List String) from h) (by decide)
  have s5 : setColIn "_is_bid" v5 (L ++ [("row_id", v1), ("_sort_date", v2), ("_tender_round", v3), ("_is_tender", v4)]) = L ++ [("row_id", v1), ("_sort_date", v2), ("_tender_round", v3), ("_is_tender", v4), ("_is_bid", v5)] := by
    rw [setColIn_notmem _ _ _ a5, List.append_assoc]
    rfl
  have a6 : "link_type" ∉ (L ++ [("row_id", v1), ("_sort_date", v2), ("_tender_round", v3), ("_is_tender", v4), ("_is_bid", v5)]).map Prod.fst := by
    simp only [List.map_append, List.mem_append]
    rintro (h | h)
    · exact hF h
    · exact absurd (show "link_type" ∈ (["row_id", "_sort_date", "_tender_round", "_is_tender", "_is_bid"] : List String) from h) (by decide)
  have s6 : setColIn "link_type" v6 (L ++ [("row_id", v1), ("_sort_date", v2), ("_tender_round", v3), ("_is_tender", v4), ("_is_bid", v5)]) = L ++ [("row_id", v1), ("_sort_date", v2), ("_tender_round", v3), ("_is_tender", v4), ("_is_bid", v5), ("link_type", v6)] := by
    rw [setColIn_notmem _ _ _ a6, List.append_assoc]
    rfl
  have a7 : "related_tender_id" ∉ (L ++ [("row_id", v1), ("_sort_date", v2), ("_tender_round", v3), ("_is_tender", v4), ("_is_bid", v5), ("link_type", v6)]).map Prod.fst := by
    simp only [List.map_append, List.mem_append]
    rintro (h | h)
    · exact hG h
    · exact absurd (show "related_tender_id" ∈ (["row_id", "_sort_date", "_tender_round", "_is_tender", "_is_bid", "link_type"] : List String) from h) (by decide)
  have s7 : setColIn "related_tender_id" v7 (L ++ [("row_id", v1), ("_sort_date", v2), ("_tender_round", v3), ("_is_tender", v4), ("_is_bid", v5), ("link_type", v6)]) = L ++ [("row_id", v1), ("_sort_date", v2), ("_tender_round", v3), ("_is_tender", v4), ("_is_bid", v5), ("link_type", v6), ("related_tender_id", v7)] := by
    rw [setColIn_notmem _ _ _ a7, List.append_assoc]
    rfl
  have a8 : "related_bid_id" ∉ (L ++ [("row_id", v1), ("_sort_date", v2), ("_tender_round", v3), ("_is_tender", v4), ("_is_bid", v5), ("link_type", v6), ("related_tender_id", v7)]).map Prod.fst := by
    simp only [List.map_append, List.mem_append]
    rintro (h | h)
    · exact hH h
    · exact absurd (show "related_bid_id" ∈ (["row_id", "_sort_date", "_tender_round", "_is_tender", "_is_bid", "link_type", "related_tender_id"] : List String) from h) (by decide)
  have s8 : setColIn "related_bid_id" v8 (L ++ [("row_id", v1), ("_sort_date", v2), ("_tender_round", v3), ("_is_tender", v4), ("_is_bid", v5), ("link_type", v6), ("related_tender_id", v7)]) = L ++ [("row_id", v1), ("_sort_date", v2), ("_tender_round", v3), ("_is_tender", v4), ("_is_bid", v5), ("link_type", v6), ("related_tender_id", v7), ("related_bid_id", v8)] := by
    rw [setColIn_notmem _ _ _ a8, List.append_assoc]
    rfl
  have m9 : "link_type" ∈ (L ++ [("row_id", v1), ("_sort_date", v2), ("_tender_round", v3), ("_is_tender", v4), ("_is_bid", v5), ("link_type", v6), ("related_tender_id", v7), ("related_bid_id", v8)]).map Prod.fst := by
    simp only [List.map_append, List.mem_append]
    exact Or.inr (show "link_type" ∈ (["row_id", "_sort_date", "_tender_round", "_is_tender", "_is_bid", "link_type", "related_tender_id", "related_bid_id"] : List String) by decide)
  have e9 := setColIn_mapfst_mem "link_type" v9 _ m9
  have m10 : "related_bid_id" ∈
      (setColIn "link_type" v9 (L ++ [("row_id", v1), ("_sort_date", v2), ("_tender_round", v3), ("_is_tender", v4), ("_is_bid", v5), ("link_type", v6), ("related_tender_id", v7), ("related_bid_id", v8)])).map Prod.fst := by
    rw [e9]
    simp only [List.map_append, List.mem_append]
    exact Or.inr (show "related_bid_id" ∈ (["row_id", "_sort_date", "_tender_round", "_is_tender", "_is_bid", "link_type", "related_tender_id", "related_bid_id"] : List String) by decide)
  have e10 := setColIn_mapfst_mem "related_bid_id" v10 _ m10
  have hT : (List.map Prod.fst [("row_id", v1), ("_sort_date", v2), ("_tender_round", v3), ("_is_tender", v4), ("_is_bid", v5), ("link_type", v6), ("related_tender_id", v7), ("related_bid_id", v8)] : List String) = ["row_id", "_sort_date", "_tender_round", "_is_tender", "_is_bid", "link_type", "related_tender_id", "related_bid_id"] := rfl
  have t1 : (["row_id", "_sort_date", "_tender_round", "_is_tender", "_is_bid",
        "link_type", "related_tender_id", "related_bid_id"] : List String).filter
        (fun s => !(s == "_sort_date")) =
      ["row_id", "_tender_round", "_is_tender", "_is_bid",
        "link_type", "related_tender_id", "related_bid_id"] := by decide
  have t2 : (["row_id", "_tender_round", "_is_tender", "_is_bid",
        "link_type", "related_tender_id", "related_bid_id"] : List String).filter
        (fun s => !(s == "_tender_round")) =
      ["row_id", "_is_tender", "_is_bid",
        "link_type", "related_tender_id", "related_bid_id"] := by decide
  have t3 : (["row_id", "_is_tender", "_is_bid",
        "link_type", "related_tender_id", "related_bid_id"] : List String).filter
        (fun s => !(s == "_is_tender")) =
      ["row_id", "_is_bid", "link_type", "related_tender_id",
        "related_bid_id"] := by decide
  have t4 : (["row_id", "_is_bid", "link_type", "related_tender_id",
        "related_bid_id"] : List String).filter (fun s => !(s == "_is_bid")) =
      ["row_id", "link_type", "related_tender_id", "related_bid_id"] := by decide
  simp only [linkCols]
  rw [s1, s2, s3, s4, s5, s6, s7, s8,
    mapfst_dropColIn "_is_bid", mapfst_dropColIn "_is_tender",
    mapfst_dropColIn "_tender_round", mapfst_dropColIn "_sort_date",
    e10, e9, List.map_append, hT,
    List.filter_append, filter_no_mem "_sort_date" _ hB, t1,
    List.filter_append, filter_no_mem "_tender_round" _ hC, t2,
    List.filter_append, filter_no_mem "_is_tender" _ hD, t3,
    List.filter_append, filter_no_mem "_is_bid" _ hE, t4]

/-- `linkCols` does not change the values of any pre-existing column whose
name is none of the eight produced names. -/
theorem linkCols_lookup (L : List (String × List Val))
    (v1 v2 v3 v4 v5 v6 v7 v8 v9 v10 : List Val)
    (hA : "row_id" ∉ L.map Prod.fst)
    (hB : "_sort_date" ∉ L.map Prod.fst)
    (hC : "_tender_round" ∉ L.map Prod.fst)
    (hD : "_is_tender" ∉ L.map Prod.fst)
    (hE : "_is_bid" ∉ L.map Prod.fst)
    (hF : "link_type" ∉ L.map Prod.fst)
    (hG : "related_tender_id" ∉ L.map Prod.fst)
    (hH : "related_bid_id" ∉ L.map Prod.fst)
    (c : String) (hc : c ∈ L.map Prod.fst) :
    (linkCols L v1 v2 v3 v4 v5 v6 v7 v8 v9 v10).lookup c = L.lookup c := by
  have nA : c ≠ "row_id" := fun e => hA (e ▸ hc)
  have nB : c ≠ "_sort_date" := fun e => hB (e ▸ hc)
  have nC : c ≠ "_tender_round" := fun e => hC (e ▸ hc)
  have nD : c ≠ "_is_tender" := fun e => hD (e ▸ hc)
  have nE : c ≠ "_is_bid" := fun e => hE (e ▸ hc)
  have nF : c ≠ "link_type" := fun e => hF (e ▸ hc)
  have nG : c ≠ "related_tender_id" := fun e => hG (e ▸ hc)
  have nH : c ≠ "related_bid_id" := fun e => hH (e ▸ hc)
  simp only [linkCols]
  rw [lookup_dropColIn_ne "_is_bid" c nE,
    lookup_dropColIn_ne "_is_tender" c nD,
    lookup_dropColIn_ne "_tender_round" c nC,
    lookup_dropColIn_ne "_sort_date" c nB,
    lookup_setColIn_ne "related_bid_id" c v10 nH,
    lookup_setColIn_ne "link_type" c v9 nF,
    lookup_setColIn_ne "related_bid_id" c v8 nH,
    lookup_setColIn_ne "related_tender_id" c v7 nG,
    lookup_setColIn_ne "link_type" c v6 nF,
    lookup_setColIn_ne "_is_bid" c v5 nE,
    lookup_setColIn_ne "_is_tender" c v4 nD,
    lookup_setColIn_ne "_tender_round" c v3 nC,
    lookup_setColIn_ne "_sort_date" c v2 nB,
    lookup_setColIn_ne "row_id" c v1 nA]

/-- C10 (amended): `assign_link` is additive PROVIDED the four required
columns are present and none of the eight names it writes or drops
(`row_id`, `_sort_date`, `_tender_round`, `_is_tender`, `_is_bid`,
`link_type`, `related_tender_id`, `related_bid_id`) pre-exists: then it
returns a frame with the same row count, whose columns are exactly the
input columns (values unchanged) followed by `row_id`, `link_type`,
`related_tender_id`, `related_bid_id`. -/
theorem c10_additive (df : DF) (pc rc dc tc : List Val)
    (h1 : getCol? df "project_id" = some pc)
    (h2 : getCol? df "record_type" = some rc)
    (h3 : getCol? df "发布日期" = some dc)
    (h4 : getCol? df "tender_round" = some tc)
    (hA : "row_id" ∉ df.cols.map Prod.fst)
    (hB : "_sort_date" ∉ df.cols.map Prod.fst)
    (hC : "_tender_round" ∉ df.cols.map Prod.fst)
    (hD : "_is_tender" ∉ df.cols.map Prod.fst)
    (hE : "_is_bid" ∉ df.cols.map Prod.fst)
    (hF : "link_type" ∉ df.cols.map Prod.fst)
    (hG : "related_tender_id" ∉ df.cols.map Prod.fst)
    (hH : "related_bid_id" ∉ df.cols.map Prod.fst) :
    ∃ out : DF, assign_link df = some out ∧ out.nrows = df.nrows ∧
      out.cols.map Prod.fst = df.cols.map Prod.fst ++
        ["row_id", "link_type", "related_tender_id", "related_bid_id"] ∧
      ∀ c ∈ df.cols.map Prod.fst, getCol? out c = getCol? df c := by
  obtain ⟨v1, v2, v3, v4, v5, v6, v7, v8, v9, v10, hout⟩ :=
    assign_link_shape df pc rc dc tc h1 h2 h3 h4
  refine ⟨_, hout, rfl, ?_, ?_⟩
  · exact linkCols_names df.cols v1 v2 v3 v4 v5 v6 v7 v8 v9 v10
      hA hB hC hD hE hF hG hH
  · intro c hc
    exact linkCols_lookup df.cols v1 v2 v3 v4 v5 v6 v7 v8 v9 v10
      hA hB hC hD hE hF hG hH c hc

/-- Witness: C10's amended additivity at the concrete five-row frame. -/
theorem c10_witness :
    ∃ out : DF, assign_link dfTBTBB = some out ∧ out.nrows = dfTBTBB.nrows ∧
      out.cols.map Prod.fst = dfTBTBB.cols.map Prod.fst ++
        ["row_id", "link_type", "related_tender_id", "related_bid_id"] ∧
      ∀ c ∈ dfTBTBB.cols.map Prod.fst, getCol? out c = getCol? dfTBTBB c :=
  c10_additive dfTBTBB _ _ _ _ rfl rfl rfl rfl
    (by decide) (by decide) (by decide) (by decide)
    (by decide) (by decide) (by decide) (by decide)

end S2P

namespace S2P

set_option maxRecDepth 80000

/-- Inserting into a sorted list permutes consing. -/
theorem insertLe_perm (le : ℕ → ℕ → Bool) (x : ℕ) :
    ∀ l, (insertLe le x l).Perm (x :: l)
  | [] => List.Perm.refl _
  | y :: t => by
    simp only [insertLe]
    by_cases h : le x y = true
    · rw [if_pos h]
    · rw [if_neg h]
      exact ((insertLe_perm le x t).cons y).trans (List.Perm.swap x y t)

/-- Insertion sort permutes its input. -/
theorem insSort_perm (le : ℕ → ℕ → Bool) :
    ∀ l, (insSort le l).Perm l
  | [] => List.Perm.refl _
  | x :: t => by
    simp only [insSort]
    exact (insertLe_perm le x _).trans ((insSort_perm le t).cons x)

/-- The processing order contains exactly the indices below `n`. -/
theorem sortedOrder_mem (pids : List String) (dates : List (Option ℤ))
    (rounds : List ℤ) (n k : ℕ) :
    k ∈ sortedOrder pids dates rounds n ↔ k < n := by
  rw [sortedOrder, (insSort_perm _ _).mem_iff, List.mem_range]

/-- The processing order has no duplicate index. -/
theorem sortedOrder_nodup (pids : List String) (dates : List (Option ℤ))
    (rounds : List ℤ) (n : ℕ) :
    (sortedOrder pids dates rounds n).Nodup := by
  rw [sortedOrder, (insSort_perm _ _).nodup_iff]
  exact List.nodup_range n

/-- Reading back an updated cell. -/
theorem getD_set_self (l : List String) (k : ℕ) (v : String) (h : k < l.length) :
    (l.set k v).getD k "" = v := by
  rw [List.getD_eq_getElem _ _ (by simpa using h)]
  exact List.getElem_set_self _

/-- Updating one cell leaves the others unchanged. -/
theorem getD_set_ne (l : List String) (k j : ℕ) (v : String) (h : j ≠ k) :
    (l.set k v).getD j "" = l.getD j "" := by
  by_cases hj : j < l.length
  · rw [List.getD_eq_getElem _ _ (by simpa using hj),
      List.getD_eq_getElem _ _ hj]
    exact List.getElem_set_ne (Ne.symm h) _
  · rw [List.getD_eq_default _ _ (by simpa using Nat.le_of_not_lt hj),
      List.getD_eq_default _ _ (Nat.le_of_not_lt hj)]

/-- A hit survives appending on the right. -/
theorem lookup_append_left {β : Type} (m m' : List (String × β)) (t : String)
    (v : β) (h : m.lookup t = some v) : (m ++ m').lookup t = some v := by
  induction m with
  | nil => exact absurd h (by simp [List.lookup])
  | cons p r ih =>
    obtain ⟨a, b⟩ := p
    simp only [List.lookup] at h ⊢
    cases hta : (t == a) with
    | true => rw [hta] at h; exact h
    | false => rw [hta] at h; exact ih h

/-- A miss defers lookup to the appended tail. -/
theorem lookup_append_right {β : Type} (m m' : List (String × β)) (t : String)
    (h : m.lookup t = none) : (m ++ m').lookup t = m'.lookup t := by
  induction m with
  | nil => rfl
  | cons p r ih =>
    obtain ⟨a, b⟩ := p
    simp only [List.lookup] at h ⊢
    cases hta : (t == a) with
    | true => rw [hta] at h; exact absurd h (by simp)
    | false => rw [hta] at h; exact ih h

/-- Members of `dictSet` are the new pair or old members. -/
theorem dictSet_mem (k : String) (v : Option String) :
    ∀ (l : List (String × Option String)) (p : String × Option String),
      p ∈ dictSet k v l → p = (k, v) ∨ p ∈ l := by
  intro l
  induction l with
  | nil =>
    intro p hp
    simp only [dictSet] at hp
    exact Or.inl (List.mem_singleton.1 hp)
  | cons q r ih =>
    intro p hp
    obtain ⟨a, b⟩ := q
    simp only [dictSet] at hp
    by_cases hq : (a == k) = true
    · rw [if_pos hq] at hp
      rcases List.mem_cons.1 hp with h | h
      · rw [eq_of_beq hq] at h
        exact Or.inl h
      · exact Or.inr (List.mem_cons_of_mem _ h)
    · rw [if_neg hq] at hp
      rcases List.mem_cons.1 hp with h | h
      · exact Or.inr (h ▸ List.mem_cons_self _ _)
      · rcases ih p h with h' | h'
        · exact Or.inl h'
        · exact Or.inr (List.mem_cons_of_mem _ h')

/-- Row ids read back positionally. -/
theorem rowIds_getD (n i : ℕ) (h : i < n) :
    (rowIds n).getD i "" = "R" ++ toString i := by
  rw [rowIds, List.getD_eq_getElem _ _ (by simpa using h),
    List.getElem_map, List.getElem_range]

/-- A row id is never the empty string. -/
theorem rid_ne_empty (s : String) : ("R" ++ s : String) ≠ "" := by
  cases s with
  | mk d =>
    intro h
    exact List.noConfusion (congrArg String.data h)

end S2P

namespace S2P

set_option maxRecDepth 80000

/-- `find?` hits a head that satisfies the predicate. -/
theorem find_cons_pos {α : Type} (pr : α → Bool) (a : α) (l : List α)
    (h : pr a = true) : List.find? pr (a :: l) = some a := by
  simp only [List.find?, h]

/-- `find?` skips a head that fails the predicate. -/
theorem find_cons_neg {α : Type} (pr : α → Bool) (a : α) (l : List α)
    (h : pr a = false) : List.find? pr (a :: l) = List.find? pr l := by
  simp only [List.find?, h]

/-- `filterMap` drops a head mapped to `none`. -/
theorem filterMap_cons_n {α β : Type} (f : α → Option β) (a : α) (l : List α)
    (h : f a = none) : List.filterMap f (a :: l) = List.filterMap f l := by
  simp only [List.filterMap_cons, h]

/-- `filterMap` keeps a head mapped to `some`. -/
theorem filterMap_cons_s {α β : Type} (f : α → Option β) (a : α) (l : List α)
    (b : β) (h : f a = some b) :
    List.filterMap f (a :: l) = b :: List.filterMap f l := by
  simp only [List.filterMap_cons, h]

/-- The first-wins fold of `tenderToOneBid`: a lookup returns the
accumulator's value if present, else the first matching pair. -/
theorem t2b_fold_lookup (T : String) :
    ∀ (ps m : List (String × String)),
      (ps.foldl (fun m p =>
        if (m.lookup p.2).isSome then m else m ++ [(p.2, p.1)]) m).lookup T =
      (match m.lookup T with
       | some v => some v
       | none => (ps.find? (fun p => p.2 == T)).map Prod.fst) := by
  intro ps
  induction ps with
  | nil =>
    intro m
    cases hm : m.lookup T with
    | some v => simp only [List.foldl_nil, hm]
    | none => simp only [List.foldl_nil, hm, List.find?_nil, Option.map_none']
  | cons p ps ih =>
    intro m
    simp only [List.foldl_cons]
    rw [ih]
    cases hm : m.lookup T with
    | some v =>
      have hstep : (if (m.lookup p.2).isSome then m
          else m ++ [(p.2, p.1)]).lookup T = some v := by
        by_cases hs : (m.lookup p.2).isSome
        · rw [if_pos hs]; exact hm
        · rw [if_neg hs]; exact lookup_append_left _ _ _ _ hm
      rw [hstep]
    | none =>
      by_cases hpT : (p.2 == T) = true
      · have hmp : m.lookup p.2 = none := by rw [eq_of_beq hpT]; exact hm
        have hstep : (if (m.lookup p.2).isSome then m
            else m ++ [(p.2, p.1)]) = m ++ [(p.2, p.1)] := by
          rw [if_neg (by rw [hmp]; exact Bool.false_ne_true)]
        have hTp : (T == p.2) = true := by
          rw [eq_of_beq hpT]; exact beq_self_eq_true T
        have hsingle : List.lookup T [(p.2, p.1)] = some p.1 := by
          simp only [List.lookup, hTp]
        rw [hstep, lookup_append_right _ _ _ hm, hsingle,
          find_cons_pos (fun q => q.2 == T) p ps hpT]
        rfl
      · have hTp : (T == p.2) = false :=
          beq_eq_false_iff_ne.2 (fun e => hpT (beq_iff_eq.2 e.symm))
        have hstep : (if (m.lookup p.2).isSome then m
            else m ++ [(p.2, p.1)]).lookup T = none := by
          by_cases hs : (m.lookup p.2).isSome
          · rw [if_pos hs]; exact hm
          · rw [if_neg hs, lookup_append_right _ _ _ hm]
            simp only [List.lookup, hTp]
        rw [hstep,
          find_cons_neg (fun q => q.2 == T) p ps (Bool.eq_false_iff.2 hpT)]

/-- Scanning the index range finds the first row whose
`related_tender_id` equals `T`. -/
theorem t2b_find (rids rt : List String) (T : String) :
    ∀ (len s j0 : ℕ), s ≤ j0 → j0 < s + len → rt.getD j0 "" = T →
      (∀ j, s ≤ j → j < j0 → rt.getD j "" ≠ T) → T ≠ "" →
      (((List.range' s len).filterMap (fun i =>
        if rt.getD i "" ≠ "" then some (rids.getD i "", rt.getD i "")
        else none)).find? (fun p => p.2 == T)) =
        some (rids.getD j0 "", T) := by
  intro len
  induction len with
  | zero =>
    intro s j0 h1 h2 _ _ _
    omega
  | succ m ih =>
    intro s j0 hs hlt hj0 hmin hT
    rw [List.range'_succ]
    by_cases hes : s = j0
    · subst hes
      rw [filterMap_cons_s (fun i =>
          if rt.getD i "" ≠ "" then some (rids.getD i "", rt.getD i "")
          else none) s _ (rids.getD s "", rt.getD s "")
          (if_pos (by rw [hj0]; exact hT)),
        find_cons_pos (fun p => p.2 == T) (rids.getD s "", rt.getD s "") _
          (show (rt.getD s "" == T) = true by rw [hj0]; exact beq_self_eq_true T),
        hj0]
    · have hsj : s < j0 := lt_of_le_of_ne hs hes
      have hne : rt.getD s "" ≠ T := hmin s le_rfl hsj
      have hrec := ih (s + 1) j0 hsj (by omega) hj0
        (fun j hj1 hj2 => hmin j (by omega) hj2) hT
      by_cases hz : rt.getD s "" = ""
      · rw [filterMap_cons_n (fun i =>
            if rt.getD i "" ≠ "" then some (rids.getD i "", rt.getD i "")
            else none) s _ (if_neg (fun hne' => hne' hz))]
        exact hrec
      · rw [filterMap_cons_s (fun i =>
            if rt.getD i "" ≠ "" then some (rids.getD i "", rt.getD i "")
            else none) s _ (rids.getD s "", rt.getD s "") (if_pos hz),
          find_cons_neg (fun p => p.2 == T) (rids.getD s "", rt.getD s "") _
            (show (rt.getD s "" == T) = false from beq_eq_false_iff_ne.2 hne)]
        exact hrec

/-- `tenderToOneBid` maps a tender id to the bid row id of the FIRST row in
original row order whose `related_tender_id` points at it. -/
theorem t2b_lookup (n : ℕ) (rids rt : List String) (T : String) (hT : T ≠ "")
    (j0 : ℕ) (hj0n : j0 < n) (hj0 : rt.getD j0 "" = T)
    (hmin : ∀ j, j < j0 → rt.getD j "" ≠ T) :
    (tenderToOneBid n rids rt).lookup T = some (rids.getD j0 "") := by
  rw [tenderToOneBid, t2b_fold_lookup]
  have hnil : (List.lookup T ([] : List (String × String))) = none := rfl
  rw [hnil, List.range_eq_range',
    t2b_find rids rt T n 0 j0 (Nat.zero_le _) (by omega) hj0
      (fun j _ hj2 => hmin j hj2) hT, Option.map_some']

end S2P

namespace S2P

set_option maxRecDepth 80000

/-- Invariant of the linker's ordered pass after processing the rows in
`done`: the `related_tender_id` array keeps its length, open-tender values
are nonempty row ids, unprocessed rows are blank, `related_bid_id` stays
blank, and `tender_has_bid` holds exactly the nonempty values of
`related_tender_id`. -/
def LinkInv (n : ℕ) (done : List ℕ) (st : LinkState) : Prop :=
  st.rt.length = n ∧
  (∀ p t, (p, some t) ∈ st.lastTender → t ≠ "") ∧
  (∀ j, j ∉ done → st.rt.getD j "" = "") ∧
  (∀ j, st.rb.getD j "" = "") ∧
  (∀ t, t ∈ st.thb ↔ (t ≠ "" ∧ ∃ j, st.rt.getD j "" = t))

/-- One step of the pass preserves the invariant. -/
theorem linkStep_inv (pids rids : List String) (isT isB : List Bool) (n : ℕ)
    (hrids : ∀ i, i < n → rids.getD i "" ≠ "")
    (done : List ℕ) (st : LinkState) (k : ℕ) (hk : k < n) (hkd : k ∉ done)
    (hinv : LinkInv n done st) :
    LinkInv n (done ++ [k]) (linkStep pids rids isT isB st k) := by
  obtain ⟨hlen, hlast, hzero, hrb, hiff⟩ := hinv
  have hlast0 : ∀ p t, (p, some t) ∈
      (if ((st.lastTender.lookup (pids.getD k "")).isSome) then st.lastTender
       else st.lastTender ++ [(pids.getD k "", none)]) → t ≠ "" := by
    intro p t hm
    by_cases hl : (st.lastTender.lookup (pids.getD k "")).isSome
    · rw [if_pos hl] at hm
      exact hlast p t hm
    · rw [if_neg hl] at hm
      rcases List.mem_append.1 hm with h | h
      · exact hlast p t h
      · exact Option.noConfusion (congrArg Prod.snd (List.mem_singleton.1 h))
  have hptw : ∀ j, (st.rt.set k "").getD j "" = st.rt.getD j "" := by
    intro j
    by_cases hj : j = k
    · subst hj
      by_cases hjr : j < st.rt.length
      · rw [getD_set_self _ _ _ hjr, hzero j hkd]
      · rw [List.set_eq_of_length_le (Nat.le_of_not_lt hjr)]
    · rw [getD_set_ne _ _ _ _ hj]
  have hiffz : ∀ t, t ∈ st.thb ↔
      (t ≠ "" ∧ ∃ j, (st.rt.set k "").getD j "" = t) := by
    intro t
    rw [hiff t]
    constructor
    · rintro ⟨hne, j, hj⟩
      exact ⟨hne, j, by rw [hptw j]; exact hj⟩
    · rintro ⟨hne, j, hj⟩
      exact ⟨hne, j, by rw [← hptw j]; exact hj⟩
  have hrb' : ∀ j, (st.rb.set k "").getD j "" = "" := by
    intro j
    by_cases hj : j = k
    · subst hj
      by_cases hjr : j < st.rb.length
      · rw [getD_set_self _ _ _ hjr]
      · rw [List.set_eq_of_length_le (Nat.le_of_not_lt hjr)]
        exact hrb j
    · rw [getD_set_ne _ _ _ _ hj]
      exact hrb j
  have hzero' : ∀ (v : String) (j), j ∉ done ++ [k] →
      (st.rt.set k v).getD j "" = "" := by
    intro v j hj
    have hj1 : j ∉ done := fun h => hj (List.mem_append.2 (Or.inl h))
    have hj2 : j ≠ k := fun h =>
      hj (List.mem_append.2 (Or.inr (h ▸ List.mem_singleton_self k)))
    rw [getD_set_ne _ _ _ _ hj2]
    exact hzero j hj1
  simp only [linkStep]
  by_cases ht : isT.getD k false = true
  · rw [if_pos ht]
    refine ⟨(List.length_set _ _ _).trans hlen, ?_, hzero' "", hrb', hiffz⟩
    intro p t hm
    rcases dictSet_mem _ _ _ _ hm with h | h
    · have ht' : t = rids.getD k "" := Option.some.inj (congrArg Prod.snd h)
      rw [ht']
      exact hrids k hk
    · exact hlast0 p t h
  · rw [if_neg ht]
    by_cases hb : isB.getD k false = true
    · rw [if_pos hb]
      cases hm : (((if ((st.lastTender.lookup (pids.getD k "")).isSome)
          then st.lastTender
          else st.lastTender ++ [(pids.getD k "", none)]).lookup
            (pids.getD k "")).getD none) with
      | none =>
        exact ⟨(List.length_set _ _ _).trans hlen, hlast0, hzero' "", hrb', hiffz⟩
      | some t0 =>
        have hl : (if ((st.lastTender.lookup (pids.getD k "")).isSome)
            then st.lastTender
            else st.lastTender ++ [(pids.getD k "", none)]).lookup
              (pids.getD k "") = some (some t0) := by
          cases hll : (if ((st.lastTender.lookup (pids.getD k "")).isSome)
              then st.lastTender
              else st.lastTender ++ [(pids.getD k "", none)]).lookup
                (pids.getD k "") with
          | none => rw [hll] at hm; exact Option.noConfusion hm
          | some w => rw [hll] at hm; exact congrArg some hm
        have ht0 : t0 ≠ "" := hlast0 _ t0 (lookup_mem _ _ _ hl)
        refine ⟨(List.length_set _ _ _).trans hlen, hlast0, hzero' t0, hrb', ?_⟩
        intro t
        by_cases het : t = t0
        · subst het
          constructor
          · intro _
            exact ⟨ht0, ⟨k, getD_set_self _ _ _ (by rw [hlen]; exact hk)⟩⟩
          · intro _
            simp only [setAdd]
            by_cases hmem : t ∈ st.thb
            · rw [if_pos hmem]
              exact hmem
            · rw [if_neg hmem]
              exact List.mem_cons_self _ _
        · have hmemiff : t ∈ setAdd t0 st.thb ↔ t ∈ st.thb := by
            simp only [setAdd]
            by_cases hmem : t0 ∈ st.thb
            · rw [if_pos hmem]
            · rw [if_neg hmem]
              constructor
              · intro h
                rcases List.mem_cons.1 h with h | h
                · exact absurd h het
                · exact h
              · exact List.mem_cons_of_mem _
          rw [hmemiff, hiff t]
          constructor
          · rintro ⟨hne, j, hj⟩
            refine ⟨hne, j, ?_⟩
            have hjk : j ≠ k := fun e => by
              rw [e, hzero k hkd] at hj
              exact hne hj.symm
            rw [getD_set_ne _ _ _ _ hjk]
            exact hj
          · rintro ⟨hne, j, hj⟩
            refine ⟨hne, j, ?_⟩
            have hjk : j ≠ k := fun e => by
              rw [e, getD_set_self _ _ _ (by rw [hlen]; exact hk)] at hj
              exact het hj.symm
            rw [getD_set_ne _ _ _ _ hjk] at hj
            exact hj
    · rw [if_neg hb]
      exact ⟨(List.length_set _ _ _).trans hlen, hlast0, hzero' "", hrb', hiffz⟩

end S2P

namespace S2P

set_option maxRecDepth 80000

/-- Folding the pass over fresh, distinct, in-range indices preserves the
invariant. -/
theorem linkFold_inv (pids rids : List String) (isT isB : List Bool) (n : ℕ)
    (hrids : ∀ i, i < n → rids.getD i "" ≠ "") :
    ∀ (l done : List ℕ) (st : LinkState),
      (∀ k ∈ l, k < n) → (∀ k ∈ l, k ∉ done) → l.Nodup → LinkInv n done st →
      LinkInv n (done ++ l) (l.foldl (linkStep pids rids isT isB) st) := by
  intro l
  induction l with
  | nil =>
    intro done st _ _ _ h
    simpa using h
  | cons k l ih =>
    intro done st hbound hfresh hnodup hinv
    simp only [List.foldl_cons]
    have h1 := linkStep_inv pids rids isT isB n hrids done st k
      (hbound k (List.mem_cons_self k l)) (hfresh k (List.mem_cons_self k l)) hinv
    have hnd := List.nodup_cons.1 hnodup
    have h2 := ih (done ++ [k]) (linkStep pids rids isT isB st k)
      (fun k' hk' => hbound k' (List.mem_cons_of_mem _ hk'))
      (fun k' hk' hm => by
        rcases List.mem_append.1 hm with h | h
        · exact hfresh k' (List.mem_cons_of_mem _ hk') h
        · exact hnd.1 (List.mem_singleton.1 h ▸ hk'))
      hnd.2 h1
    rw [List.append_assoc] at h2
    exact h2

/-- The initial linker state satisfies the invariant with nothing done. -/
theorem linkInit_inv (n : ℕ) : LinkInv n [] (linkInit n) := by
  have hrep : ∀ j, (List.replicate n ("" : String)).getD j "" = "" := by
    intro j
    by_cases hj : j < n
    · rw [List.getD_eq_getElem _ _ (by simpa using hj)]
      exact List.getElem_replicate _ _
    · exact List.getD_eq_default _ _ (by simpa using Nat.le_of_not_lt hj)
  refine ⟨List.length_replicate _ _, ?_, ?_, ?_, ?_⟩
  · intro p t hm
    exact absurd hm (List.not_mem_nil _)
  · intro j _
    exact hrep j
  · intro j
    exact hrep j
  · intro t
    constructor
    · intro h
      exact absurd h (List.not_mem_nil t)
    · rintro ⟨hne, j, hj⟩
      have hj' : (List.replicate n ("" : String)).getD j "" = t := hj
      rw [hrep j] at hj'
      exact absurd hj'.symm hne

/-- The linker's pass on the frame's arrays, in processing order. -/
def linkRun (pids : List String) (dates : List (Option ℤ)) (rounds : List ℤ)
    (isT isB : List Bool) (n : ℕ) : LinkState :=
  linkMain pids (rowIds n) isT isB (sortedOrder pids dates rounds n) n

/-- The full pass satisfies the invariant. -/
theorem linkRun_inv (pids : List String) (dates : List (Option ℤ))
    (rounds : List ℤ) (isT isB : List Bool) (n : ℕ) :
    LinkInv n (sortedOrder pids dates rounds n)
      (linkRun pids dates rounds isT isB n) := by
  have h := linkFold_inv pids (rowIds n) isT isB n
    (fun i hi => by rw [rowIds_getD n i hi]; exact rid_ne_empty _)
    (sortedOrder pids dates rounds n) [] (linkInit n)
    (fun k hk => (sortedOrder_mem pids dates rounds n k).1 hk)
    (fun k _ => List.not_mem_nil k)
    (sortedOrder_nodup pids dates rounds n) (linkInit_inv n)
  exact h

end S2P

namespace S2P

set_option maxRecDepth 80000

/-- C1 (amended): in the post-pass, a tender row that at least one bid row
links to (via `related_tender_id`) is relabeled `已关联` and its
`related_bid_id` is the row id of the FIRST such bid row in ORIGINAL ROW
ORDER (not in ordering-key order); a tender row that no bid links to gets
`仅招标` and an empty `related_bid_id`. -/
theorem c1_first_bid_row_order (pids : List String) (dates : List (Option ℤ))
    (rounds : List ℤ) (isT isB : List Bool) (n i : ℕ)
    (hi : i < n) (hT : isT.getD i false = true) :
    ((∃ j, (linkRun pids dates rounds isT isB n).rt.getD j "" =
        (rowIds n).getD i "") →
      linkLtFinal isT (rowIds n) (linkRun pids dates rounds isT isB n) i =
        "已关联" ∧
      ∃ j0, j0 < n ∧
        (linkRun pids dates rounds isT isB n).rt.getD j0 "" =
          (rowIds n).getD i "" ∧
        (∀ j, j < j0 →
          (linkRun pids dates rounds isT isB n).rt.getD j "" ≠
            (rowIds n).getD i "") ∧
        linkRbFinal isT (rowIds n) (linkRun pids dates rounds isT isB n)
          (tenderToOneBid n (rowIds n)
            (linkRun pids dates rounds isT isB n).rt) i =
          (rowIds n).getD j0 "") ∧
    ((∀ j, (linkRun pids dates rounds isT isB n).rt.getD j "" ≠
        (rowIds n).getD i "") →
      linkLtFinal isT (rowIds n) (linkRun pids dates rounds isT isB n) i =
        "仅招标" ∧
      linkRbFinal isT (rowIds n) (linkRun pids dates rounds isT isB n)
        (tenderToOneBid n (rowIds n)
          (linkRun pids dates rounds isT isB n).rt) i = "") := by
  obtain ⟨hlen, _hlast, _hzero, hrb, hiff⟩ :=
    linkRun_inv pids dates rounds isT isB n
  have hTne : (rowIds n).getD i "" ≠ "" := by
    rw [rowIds_getD n i hi]
    exact rid_ne_empty _
  constructor
  · intro hex
    have hmem : (rowIds n).getD i "" ∈
        (linkRun pids dates rounds isT isB n).thb :=
      (hiff _).2 ⟨hTne, hex⟩
    have hfs := Nat.find_spec hex
    have hmin : ∀ j, j < Nat.find hex →
        (linkRun pids dates rounds isT isB n).rt.getD j "" ≠
          (rowIds n).getD i "" :=
      fun j hj => Nat.find_min hex hj
    have hj0n : Nat.find hex < n := by
      by_contra hge
      have hdef : (linkRun pids dates rounds isT isB n).rt.getD
          (Nat.find hex) "" = "" :=
        List.getD_eq_default _ _ (by rw [hlen]; exact Nat.le_of_not_lt hge)
      rw [hdef] at hfs
      exact hTne hfs.symm
    refine ⟨?_, Nat.find hex, hj0n, hfs, hmin, ?_⟩
    · simp only [linkLtFinal]
      rw [if_pos hT, if_pos hmem]
    · simp only [linkRbFinal]
      rw [if_pos ⟨hT, hmem⟩,
        t2b_lookup n (rowIds n) _ _ hTne (Nat.find hex) hj0n hfs hmin,
        Option.getD_some]
  · intro hall
    have hnm : (rowIds n).getD i "" ∉
        (linkRun pids dates rounds isT isB n).thb := by
      intro hm
      rcases (hiff _).1 hm with ⟨_, j, hj⟩
      exact hall j hj
    constructor
    · simp only [linkLtFinal]
      rw [if_pos hT, if_neg hnm]
    · simp only [linkRbFinal]
      rw [if_neg (fun hc => hnm hc.2)]
      exact hrb i

/-- Witness: C1's amended post-pass statement applied at the concrete
out-of-order project (one tender, two bids published in reversed order). -/
theorem c1_witness :
    (0 : ℕ) < 3 ∧ ([true, false, false] : List Bool).getD 0 false = true ∧
    (((∃ j, (linkRun ["p", "p", "p"] [some 1, some 3, some 2] [1, 1, 1]
        [true, false, false] [false, true, true] 3).rt.getD j "" =
        (rowIds 3).getD 0 "") →
      linkLtFinal [true, false, false] (rowIds 3)
        (linkRun ["p", "p", "p"] [some 1, some 3, some 2] [1, 1, 1]
          [true, false, false] [false, true, true] 3) 0 = "已关联" ∧
      ∃ j0, j0 < 3 ∧
        (linkRun ["p", "p", "p"] [some 1, some 3, some 2] [1, 1, 1]
          [true, false, false] [false, true, true] 3).rt.getD j0 "" =
          (rowIds 3).getD 0 "" ∧
        (∀ j, j < j0 →
          (linkRun ["p", "p", "p"] [some 1, some 3, some 2] [1, 1, 1]
            [true, false, false] [false, true, true] 3).rt.getD j "" ≠
            (rowIds 3).getD 0 "") ∧
        linkRbFinal [true, false, false] (rowIds 3)
          (linkRun ["p", "p", "p"] [some 1, some 3, some 2] [1, 1, 1]
            [true, false, false] [false, true, true] 3)
          (tenderToOneBid 3 (rowIds 3)
            (linkRun ["p", "p", "p"] [some 1, some 3, some 2] [1, 1, 1]
              [true, false, false] [false, true, true] 3).rt) 0 =
          (rowIds 3).getD j0 "") ∧
    ((∀ j, (linkRun ["p", "p", "p"] [some 1, some 3, some 2] [1, 1, 1]
        [true, false, false] [false, true, true] 3).rt.getD j "" ≠
        (rowIds 3).getD 0 "") →
      linkLtFinal [true, false, false] (rowIds 3)
        (linkRun ["p", "p", "p"] [some 1, some 3, some 2] [1, 1, 1]
          [true, false, false] [false, true, true] 3) 0 = "仅招标" ∧
      linkRbFinal [true, false, false] (rowIds 3)
        (linkRun ["p", "p", "p"] [some 1, some 3, some 2] [1, 1, 1]
          [true, false, false] [false, true, true] 3)
        (tenderToOneBid 3 (rowIds 3)
          (linkRun ["p", "p", "p"] [some 1, some 3, some 2] [1, 1, 1]
            [true, false, false] [false, true, true] 3).rt) 0 = "")) :=
  ⟨by decide, by decide,
    c1_first_bid_row_order ["p", "p", "p"] [some 1, some 3, some 2] [1, 1, 1]
      [true, false, false] [false, true, true] 3 0 (by decide) (by decide)⟩

end S2P
